import Mathlib

/-!
Didact / Esselte 100 and SWTPC 6800 drivers: address decoding and PIA glue.

A shallow embedding of the memory-mapped I/O glue of two MAME drivers:

* `src/mame/drivers/didact.cpp`: the Esselte 100 handlers `e100_state::pia_r`
  and `e100_state::pia_w`, and the address maps `e100_map`, `md6802_map`,
  `mp68a_map`;
* `src/mame/drivers/swtpc.cpp`: `swtpc_state::mem_map` and the RAM installed
  by `swtpc_state::machine_start`;
* `src/lib/netlist/devices/nld_74164.cpp`: the update of the 74164 shift
  register;
* `src/mame/drivers/didact.cpp` again: the keypad and display handlers of the
  mp68a and md6802, the keyboard read of the Esselte 100, and the periodic
  `scan_artwork` timer callback.

Framework code that the drivers call but that is not among these sources (the
address-space router, the scheduler, output lines) is modelled from the
specification; each such definition says so.

Machine integers are natural numbers; a value stored in a `UINT8` is reduced
modulo `2 ^ 8`.  Diagnostic output (`LOG`, `LOGCS`, `logerror`) has no effect
on the machine and is left out.
-/

/-! ## Machine integers -/

/-- Conversion of a value to the C type `UINT8`. -/
def UINT8 (x : Nat) : Nat := x % 256

/-! ## The two 6821 PIAs of the Esselte 100 -/

/-- The two peripheral interface adapters of the board (`PIA1_TAG`, `PIA2_TAG`). -/
inductive Chip where
  | PIA1
  | PIA2
  deriving DecidableEq, Repr

/-- One call made by the driver into a PIA device. -/
inductive Access where
  | rd (chip : Chip) (offset : Nat)
  | wr (chip : Chip) (offset : Nat) (data : Nat)
  deriving DecidableEq, Repr

/-- The interface of `pia6821_device` used by the driver: `read(space, offset)`
returns a byte and may change the device (reading a port clears its interrupt
flags), `write(space, offset, data)` changes the device.  The behaviour of the
chip itself is a parameter. -/
structure pia6821_device (σ : Type) where
  read : σ → Nat → Nat × σ
  write : σ → Nat → Nat → σ

/-- The part of `e100_state` that `pia_r` and `pia_w` touch: the two PIA
devices, and the sequence of calls made into them so far (oldest first). -/
structure e100_state (σ₁ σ₂ : Type) where
  m_pia1 : σ₁
  m_pia2 : σ₂
  calls : List Access

namespace e100_state

variable {σ₁ σ₂ : Type}

/-- The call `m_pia1->read(space, offset)`: the byte returned and the new state. -/
def pia1_read (P1 : pia6821_device σ₁) (st : e100_state σ₁ σ₂) (offset : Nat) :
    Nat × e100_state σ₁ σ₂ :=
  (UINT8 (P1.read st.m_pia1 offset).1,
   { st with m_pia1 := (P1.read st.m_pia1 offset).2,
             calls := st.calls ++ [Access.rd Chip.PIA1 offset] })

/-- The call `m_pia2->read(space, offset)`: the byte returned and the new state. -/
def pia2_read (P2 : pia6821_device σ₂) (st : e100_state σ₁ σ₂) (offset : Nat) :
    Nat × e100_state σ₁ σ₂ :=
  (UINT8 (P2.read st.m_pia2 offset).1,
   { st with m_pia2 := (P2.read st.m_pia2 offset).2,
             calls := st.calls ++ [Access.rd Chip.PIA2 offset] })

/-- The call `m_pia1->write(space, offset, data)`. -/
def pia1_write (P1 : pia6821_device σ₁) (st : e100_state σ₁ σ₂) (offset data : Nat) :
    e100_state σ₁ σ₂ :=
  { st with m_pia1 := P1.write st.m_pia1 offset data,
            calls := st.calls ++ [Access.wr Chip.PIA1 offset data] }

/-- The call `m_pia2->write(space, offset, data)`. -/
def pia2_write (P2 : pia6821_device σ₂) (st : e100_state σ₁ σ₂) (offset data : Nat) :
    e100_state σ₁ σ₂ :=
  { st with m_pia2 := P2.write st.m_pia2 offset data,
            calls := st.calls ++ [Access.wr Chip.PIA2 offset data] }

/-- Handler `WRITE8_MEMBER( e100_state::pia_w )`: the two `if` statements that forward
the write, in source order. -/
def pia_w (P1 : pia6821_device σ₁) (P2 : pia6821_device σ₂) (st : e100_state σ₁ σ₂)
    (offset data : Nat) : e100_state σ₁ σ₂ :=
  let st := if (offset &&& 0x08) = 0x08 then pia1_write P1 st offset data else st
  let st := if (offset &&& 0x10) = 0x10 then pia2_write P2 st offset data else st
  st

/-- Handler `READ8_MEMBER( e100_state::pia_r )`: `data` starts as 0 and the `switch` on
`offset & 0x18` picks the devices to read. -/
def pia_r (P1 : pia6821_device σ₁) (P2 : pia6821_device σ₂) (st : e100_state σ₁ σ₂)
    (offset : Nat) : Nat × e100_state σ₁ σ₂ :=
  let data := 0
  match offset &&& 0x18 with
  | 0x18 =>
    let (data1, st) := pia1_read P1 st offset
    let (data2, st) := pia2_read P2 st offset
    (UINT8 (data1 &&& data2), st)
  | 0x08 =>
    let (data, st) := pia1_read P1 st offset
    (data, st)
  | 0x10 =>
    let (data, st) := pia2_read P2 st offset
    (data, st)
  | _ => (data, st)

end e100_state

/-- A PIA stand-in whose every read returns the byte `v` (used in examples). -/
def constPia (v : Nat) : pia6821_device Unit where
  read := fun _ _ => (v, ())
  write := fun _ _ _ => ()

/-- Number of read calls made into `chip` in a call sequence. -/
def readCount (chip : Chip) (l : List Access) : Nat :=
  (l.filter (fun x => match x with
    | Access.rd c _ => decide (c = chip)
    | Access.wr _ _ _ => false)).length

/-- The calls made during one operation: what `after` adds to `before`. -/
def issued (before after : List Access) : List Access := after.drop before.length

/-! ## Address maps -/

/-- Memory regions named by the drivers (`ROM_REGION` tags). -/
inductive Region where
  | roms
  | maincpu
  | mcm6830
  deriving DecidableEq, Repr

/-- What an address-map entry is bound to. -/
inductive Handler where
  /-- Plain RAM: `AM_RAM`, `.ram()`, `install_ram` -/
  | ram
  /-- Shared video RAM: `AM_RAM AM_SHARE("videoram")` -/
  | videoram
  /-- ROM in a region: `AM_ROM AM_REGION(tag, offs)`, `.rom().region(tag, offs)` -/
  | rom (region : Region) (offs : Nat)
  /-- PIA device: `AM_DEVREADWRITE(PIAn_TAG, pia682x_device, read, write)` -/
  | pia (chip : Chip)
  /-- Driver handlers: `AM_READWRITE(pia_r, pia_w)` -/
  | pia_rw
  /-- SS-30 I/O slot: `.rw("io<slot>", ss50_interface_port_device::read, ::write)` -/
  | io (slot : Nat)
  deriving DecidableEq, Repr

/-- One line of an address map: `AM_RANGE(addrstart, addrend) AM_MIRROR(addrmirror)`
followed by its handler. -/
structure address_map_entry where
  addrstart : Nat
  addrend : Nat
  addrmirror : Nat
  handler : Handler
  deriving DecidableEq, Repr

/-- An address map: the value returned for unmapped reads and the entries in
source order.  The maps of didact.cpp do not configure an unmapped value;
their field is filled with 0 and no statement below depends on it. -/
structure address_map where
  unmap_value : Nat
  entries : List address_map_entry
  deriving Repr

/-- Entry without `AM_MIRROR`. -/
def AM_RANGE (addrstart addrend : Nat) (handler : Handler) : address_map_entry :=
  ⟨addrstart, addrend, 0, handler⟩

/-- Address map `e100_map` of didact.cpp. -/
def e100_map : address_map where
  unmap_value := 0
  entries :=
    [ AM_RANGE 0x0000 0x1fff Handler.ram,
      AM_RANGE 0x8000 0x87ff (Handler.rom Region.roms 0),
      AM_RANGE 0xc000 0xc3ff Handler.videoram,
      ⟨0xc800, 0xc81f, 0x07e0, Handler.pia_rw⟩,
      AM_RANGE 0xd000 0xffff (Handler.rom Region.roms 0x1000) ]

/-- Address map `md6802_map` of didact.cpp. -/
def md6802_map : address_map where
  unmap_value := 0
  entries :=
    [ ⟨0x0000, 0x07ff, 0x1800, Handler.ram⟩,
      ⟨0xa000, 0xa003, 0x1ffc, Handler.pia Chip.PIA1⟩,
      ⟨0xc000, 0xc003, 0x1ffc, Handler.pia Chip.PIA2⟩,
      ⟨0xe000, 0xe7ff, 0x1800, Handler.rom Region.maincpu 0xe000⟩ ]

/-- Address map `mp68a_map` of didact.cpp. -/
def mp68a_map : address_map where
  unmap_value := 0
  entries :=
    [ ⟨0x0000, 0x00ff, 0xf000, Handler.ram⟩,
      ⟨0x0500, 0x0503, 0xf0fc, Handler.pia Chip.PIA1⟩,
      ⟨0x0600, 0x0603, 0xf0fc, Handler.pia Chip.PIA2⟩,
      ⟨0x0700, 0x07ff, 0xf000, Handler.ram⟩,
      ⟨0x0800, 0x0bff, 0xf400, Handler.rom Region.maincpu 0x0800⟩ ]

/-- Modelled from the spec: `map.unmap_value_high()` is a framework call that
is not part of the driver sources; it configures the unmapped value of the
8-bit program space to all ones, the spec's "unmapped value, often 0xFF". -/
def unmap_value_high : Nat := 0xFF

/-- Address map `swtpc_state::mem_map` of swtpc.cpp (the `io6` line is commented out in
the source). -/
def swtpc_state.mem_map : address_map where
  unmap_value := unmap_value_high
  entries :=
    [ ⟨0x8000, 0x8003, 0x0fc0, Handler.io 0⟩,
      ⟨0x8004, 0x8007, 0x0fc0, Handler.io 1⟩,
      ⟨0x8008, 0x800b, 0x0fc0, Handler.io 2⟩,
      ⟨0x800c, 0x800f, 0x0fc0, Handler.io 3⟩,
      ⟨0x8010, 0x8013, 0x0fc0, Handler.io 4⟩,
      ⟨0x8014, 0x801b, 0x0fc0, Handler.io 5⟩,
      ⟨0x801c, 0x801f, 0x0fc0, Handler.io 7⟩,
      AM_RANGE 0xa000 0xbfff Handler.ram,
      AM_RANGE 0xc000 0xdfff Handler.ram,
      ⟨0xe000, 0xe3ff, 0x1c00, Handler.rom Region.mcm6830 0⟩ ]

/-- The RAM sizes of the swtpc configuration, in bytes:
`set_default_size("32K").set_extra_options("4K,8K,12K,16K,20K,24K,28K,32K")`. -/
def ram_options : List Nat :=
  [4 * 1024, 8 * 1024, 12 * 1024, 16 * 1024, 20 * 1024, 24 * 1024, 28 * 1024, 32 * 1024]

/-- The program space of the swtpc after `swtpc_state::machine_start`:
`install_ram(0, m_ram->size() - 1, ...)` on top of `mem_map`. -/
def swtpc_state.machine_start (ram_size : Nat) : address_map :=
  { swtpc_state.mem_map with
    entries := AM_RANGE 0 (ram_size - 1) Handler.ram :: swtpc_state.mem_map.entries }

/-- Size in bytes of the region `"mcm6830"` (`ROM_REGION( 0x0400, "mcm6830", 0 )`
in both `ROM_START(swtpc)` and `ROM_START(swtpcm)`). -/
def mcm6830_size : Nat := 0x0400

/-! ## Address decoding -/

/-- Modelled from the spec: the router's first step (the address-space
dispatcher itself is not part of the driver sources),
`effective_address = address & ~mirror_mask`, with `~` taken on a 32-bit
`offs_t`. -/
def effective_address (mirror_mask address : Nat) : Nat :=
  address &&& (0xFFFFFFFF ^^^ mirror_mask)

/-- Base of an entry: its first address. -/
def address_map_entry.base (e : address_map_entry) : Nat := e.addrstart

/-- Size of an entry: the number of addresses from `addrstart` to `addrend`. -/
def address_map_entry.size (e : address_map_entry) : Nat := e.addrend + 1 - e.addrstart

/-- Modelled from the spec: the router's matching rule, "a range matches if
`effective_address` falls within `[base, base+size)`". -/
def address_map_entry.matches (e : address_map_entry) (address : Nat) : Bool :=
  decide (e.base ≤ effective_address e.addrmirror address ∧
    effective_address e.addrmirror address < e.base + e.size)

/-- The matching rule written with the two bounds of `AM_RANGE`:
`(a & ~mirror)` lies in `[start, end]`. -/
def address_map_entry.inRange (e : address_map_entry) (address : Nat) : Bool :=
  decide (e.addrstart ≤ effective_address e.addrmirror address ∧
    effective_address e.addrmirror address ≤ e.addrend)

/-- Modelled from the spec: the offset handed to the handler of a matching
entry, the effective address relative to the range's base. -/
def address_map_entry.offset (e : address_map_entry) (address : Nat) : Nat :=
  effective_address e.addrmirror address - e.base

/-- Modelled from the spec: the router's dispatch for a single-handler access,
the first matching entry with the relative offset, or `none` when the address
is unmapped. -/
def address_map.route (m : address_map) (address : Nat) : Option (Handler × Nat) :=
  (m.entries.find? (fun e => e.matches address)).map (fun e => (e.handler, e.offset address))

/-- Modelled from the spec: a byte read through the router.  A mapped address
is served by its handler (`backend` stands for the devices and memories behind
the handlers); "unmapped addresses return a configured default". -/
def address_map.read (m : address_map) (backend : Handler → Nat → Nat) (address : Nat) : Nat :=
  match m.route address with
  | some (h, offset) => UINT8 (backend h offset)
  | none => m.unmap_value

/-- Modelled from the spec: the framework's `AM_REGION(tag, offs)` is not part
of the driver sources; an entry bound to a memory region serves the relative
offset `rel` from byte `offs + rel` of that region. -/
def region_offset : Handler × Nat → Option (Region × Nat)
  | (Handler.rom region offs, rel) => some (region, offs + rel)
  | _ => none

/-! ## The 74164 shift register of the netlist library -/

/-- Bit `n` of `x`, the C expression `(x >> n) & 1`. -/
def BIT (x n : Nat) : Nat := (x >>> n) &&& 1

/-- Conversion of a value to the C type `unsigned` (32 bits). -/
def UINT32 (x : Nat) : Nat := x % 2 ^ 32

/-- Modelled from the spec: the macro `NLTIME_FROM_NS` is not part of the
device sources; netlist time is counted here in nanoseconds, so a delay of
`ns` nanoseconds is the duration `ns`. -/
def NLTIME_FROM_NS (ns : Nat) : Nat := ns

/-- A pending change of one output line: the output index, the value driven
and the time at which subscribers of the line see it. -/
structure Notification where
  output : Nat
  value : Nat
  fire_time : Nat
  deriving DecidableEq, Repr

/-- Modelled from the spec: `logic_output_t::push(value, delay)` is not part of
the device sources.  By the signal-line design a value driven with a declared
propagation delay is not delivered at once, "the notification is instead
scheduled as a ScheduledEvent at `now + delay`". -/
def push (now output value delay : Nat) : Notification :=
  ⟨output, value, now + delay⟩

/-- The state variables of `NETLIB_OBJECT(74164)`: `m_cnt` and `m_last_CLK`,
both `state_var<unsigned>`. -/
structure nld_74164 where
  m_cnt : Nat
  m_last_CLK : Nat
  deriving DecidableEq, Repr

namespace nld_74164

/-- Reset of the device, `NETLIB_RESETI()`. -/
def reset : nld_74164 := ⟨0, 0⟩

/-- The body of the `if`/`else if` of `NETLIB_UPDATE(74164)`: the new value of
`m_cnt`.  The arguments `A`, `B`, `CLRQ`, `CLK` are the values read from the
four logic inputs `m_A()`, `m_B()`, `m_CLRQ()`, `m_CLK()`. -/
def next_cnt (d : nld_74164) (A B CLRQ CLK : Nat) : Nat :=
  if CLRQ = 0 then
    0
  else if CLK ≠ 0 ∧ d.m_last_CLK = 0 then
    let m_cnt := UINT32 (d.m_cnt <<< 1) &&& 0xfe
    if A ≠ 0 ∧ B ≠ 0 then
      m_cnt ||| 0x01
    else
      m_cnt &&& 0xfe
  else
    d.m_cnt

/-- The device update `NETLIB_UPDATE(74164)` at time `now`: the new state
variables and the eight pushes `m_Q[i].push((m_cnt >> i) & 1, NLTIME_FROM_NS(30))`
for `i = 0 .. 7`, in loop order. -/
def update (now : Nat) (d : nld_74164) (A B CLRQ CLK : Nat) :
    nld_74164 × List Notification :=
  let m_cnt := next_cnt d A B CLRQ CLK
  let m_last_CLK := CLK
  (⟨m_cnt, m_last_CLK⟩,
   (List.range 8).map (fun i => push now i ((m_cnt >>> i) &&& 1) (NLTIME_FROM_NS 30)))

end nld_74164

/-! ## Didact keypads and displays -/

/-- Operator `~` of C on a 32-bit operand (`int`, `ioport_value`), as a bit
pattern. -/
def NOT32 (x : Nat) : Nat := 0xFFFFFFFF ^^^ x

/-- The data members of `didact_state` used by the keyboard and timer code,
the LED outputs written through `output().set_led_value(index, value)`, and
the number of calls of `m_maincpu->reset()` made so far. -/
structure didact_state where
  m_line0 : Nat
  m_line1 : Nat
  m_line2 : Nat
  m_line3 : Nat
  m_reset : Nat
  m_shift : Nat
  m_led : Nat
  led_value : Nat → Nat
  maincpu_resets : Nat

/-- The call `output().set_led_value(index, value)`. -/
def didact_state.set_led_value (st : didact_state) (index value : Nat) : didact_state :=
  { st with led_value := fun i => if i = index then value else st.led_value i }

/-- State after construction: all members initialised to 0 by the constructor
of `didact_state`, no LED lit. -/
def didact_state.init : didact_state :=
  ⟨0, 0, 0, 0, 0, 0, 0, fun _ => 0, 0⟩

/-- Timer callback `TIMER_DEVICE_CALLBACK_MEMBER(didact_state::scan_artwork)`.
The virtual `machine_reset()` of the driver class is the parameter
`machine_reset`; `io_line4` is the value both calls of `m_io_line4->read()`
return. -/
def didact_state.scan_artwork (machine_reset : didact_state → didact_state)
    (st : didact_state) (io_line4 : Nat) : didact_state :=
  if io_line4 &&& 0x04 ≠ 0 then
    let st := { st with m_shift := 0 }
    let st := st.set_led_value st.m_led st.m_shift
    let st := if st.m_reset = 0 then machine_reset st else st
    { st with m_reset := 1 }
  else if io_line4 &&& 0x08 ≠ 0 then
    let st := { st with m_shift := 1 }
    st.set_led_value st.m_led st.m_shift
  else
    if st.m_reset = 1 then { st with m_reset := 0 } else st

/-! ### mp68a -/

namespace mp68a_state

/-- Reset handler `mp68a_state::machine_reset`: `m_maincpu->reset()`. -/
def machine_reset (st : didact_state) : didact_state :=
  { st with maincpu_resets := st.maincpu_resets + 1 }

/-- The loop `while (a012 > 0 && !(line & (1 << --a012)));` started with the
given value of `a012`: the value of `a012` when the loop ends. -/
def scan (line : Nat) : Nat → Nat
  | 0 => 0
  | a012 + 1 => if line &&& (1 <<< a012) = 0 then scan line a012 else a012

/-- Handler `READ8_MEMBER( mp68a_state::pia2_kbB_r )`: the byte returned and the
new state (`mp68a_state` adds only device references to `didact_state`). -/
def pia2_kbB_r (st : didact_state) : Nat × didact_state :=
  let a012 := 0
  let line := UINT8 (st.m_line0 ||| st.m_line1)
  let a012 := if line ≠ 0 then UINT8 (scan line 8 + 8) else a012
  let line := if a012 = 0 then UINT8 (st.m_line2 ||| st.m_line3) else line
  let a012 := if a012 = 0 ∧ line ≠ 0 then scan line 8 else a012
  let pb := a012
  if st.m_shift ≠ 0 then
    let pb := UINT8 (pb ||| 0x80)
    let st := { st with m_shift := 0 }
    let st := st.set_led_value st.m_led st.m_shift
    (pb, st)
  else
    (pb, st)

/-- Handler `READ_LINE_MEMBER( mp68a_state::pia2_cb1_r )`; the arguments are the
values returned by `m_io_line0->read()` .. `m_io_line3->read()`. -/
def pia2_cb1_r (st : didact_state) (io_line0 io_line1 io_line2 io_line3 : Nat) :
    Nat × didact_state :=
  let st := { st with m_line0 := UINT8 io_line0, m_line1 := UINT8 io_line1,
                      m_line2 := UINT8 io_line2, m_line3 := UINT8 io_line3 }
  (if (st.m_line0 ||| st.m_line1 ||| st.m_line2 ||| st.m_line3) ≠ 0 then 0 else 1, st)

/-- The hex keys of `INPUT_PORTS_START( mp68a )`: for key `k` the port
(`LINE0` .. `LINE3`) and the `PORT_BIT` mask, all `IP_ACTIVE_HIGH`. -/
def key_bit : Nat → Nat × Nat
  | 0xC => (0, 0x10) | 0xD => (0, 0x20) | 0xE => (0, 0x40) | 0xF => (0, 0x80)
  | 0x8 => (1, 0x01) | 0x9 => (1, 0x02) | 0xA => (1, 0x04) | 0xB => (1, 0x08)
  | 0x4 => (2, 0x10) | 0x5 => (2, 0x20) | 0x6 => (2, 0x40) | 0x7 => (2, 0x80)
  | 0x0 => (3, 0x01) | 0x1 => (3, 0x02) | 0x2 => (3, 0x04) | 0x3 => (3, 0x08)
  | _ => (4, 0)

/-- Value read from port `LINE<line>` when exactly the hex key `k` is pressed:
an active-high bit reads 1 while its key is down, every other bit reads 0. -/
def io_line (k line : Nat) : Nat :=
  if (key_bit k).1 = line then (key_bit k).2 else 0

end mp68a_state

/-! ### md6802 -/

/-- Modelled from the spec: the macro `BITSWAP8` is not part of the driver
sources.  It is taken as the bit permutation its name and arguments describe:
bit 7 of the result is bit `B7` of `val`, bit 6 is bit `B6`, and so on down
to bit 0, which is bit `B0` of `val`. -/
def BITSWAP8 (val B7 B6 B5 B4 B3 B2 B1 B0 : Nat) : Nat :=
  (BIT val B7 <<< 7) ||| (BIT val B6 <<< 6) ||| (BIT val B5 <<< 5) ||| (BIT val B4 <<< 4) |||
  (BIT val B3 <<< 3) ||| (BIT val B2 <<< 2) ||| (BIT val B1 <<< 1) ||| (BIT val B0 <<< 0)

/-- The members `md6802_state` adds to `didact_state`: `m_segments`, the value
last written to the 74145 decoder `m_tb16_74145`, and the digit outputs written
through `output().set_digit_value(index, value)`. -/
structure md6802_state extends didact_state where
  m_segments : Nat
  m_tb16_74145 : Nat
  digit_value : Nat → Nat

namespace md6802_state

/-- Reset handler `md6802_state::machine_reset`: `m_led = 1; m_maincpu->reset()`. -/
def machine_reset (st : didact_state) : didact_state :=
  { st with m_led := 1, maincpu_resets := st.maincpu_resets + 1 }

/-- The call `output().set_digit_value(index, value)`. -/
def set_digit_value (st : md6802_state) (index value : Nat) : md6802_state :=
  { st with digit_value := fun i => if i = index then value else st.digit_value i }

/-- Handler `READ8_MEMBER( md6802_state::pia2_kbA_r )`.  The argument
`tb16_74145_read` is the value returned by `m_tb16_74145->read()`, the others
are the values returned by `m_io_line0->read()` .. `m_io_line3->read()`. -/
def pia2_kbA_r (st : md6802_state) (tb16_74145_read io_line0 io_line1 io_line2 io_line3 : Nat) :
    Nat × md6802_state :=
  let pa := 0xff
  let ls145 := UINT8 (tb16_74145_read &&& 0x0f)
  let st := { st with m_line0 := UINT8 io_line0, m_line1 := UINT8 io_line1,
                      m_line2 := UINT8 io_line2, m_line3 := UINT8 io_line3 }
  let pa := UINT8 (pa &&& NOT32 (if (NOT32 st.m_line0 &&& ls145) ≠ 0 then 1 else 0))
  let pa := UINT8 (pa &&& NOT32 (if (NOT32 st.m_line1 &&& ls145) ≠ 0 then 2 else 0))
  let pa := UINT8 (pa &&& NOT32 (if (NOT32 st.m_line2 &&& ls145) ≠ 0 then 4 else 0))
  let pa := UINT8 (pa &&& NOT32 (if (NOT32 st.m_line3 &&& ls145) ≠ 0 then 8 else 0))
  let pa := if st.m_shift ≠ 0 then UINT8 (pa &&& 0x7f) else pa
  (pa, st)

/-- Handler `WRITE8_MEMBER( md6802_state::pia2_kbA_w )`. -/
def pia2_kbA_w (st : md6802_state) (data : Nat) : md6802_state :=
  let digit_nbr := UINT8 ((data >>> 4) &&& 0x07)
  let st := { st with m_tb16_74145 := digit_nbr }
  if digit_nbr < 6 then st.set_digit_value digit_nbr st.m_segments else st

/-- Handler `WRITE8_MEMBER( md6802_state::pia2_kbB_w )`. -/
def pia2_kbB_w (st : md6802_state) (data : Nat) : md6802_state :=
  { st with m_segments := UINT8 (BITSWAP8 data 0 4 5 3 2 1 7 6) }

/-- Value read from each of the ports `LINE0` .. `LINE3` of
`INPUT_PORTS_START( md6802 )` while no key is pressed: the four key bits have
default value 1 (`PORT_BIT(0x01, 0x01, ...)` etc.), the unused bits `0xf0` have
default 0. -/
def io_line_idle : Nat := 0x0F

end md6802_state

/-! ### Esselte 100 keyboard -/

/-- Handler `READ8_MEMBER( e100_state::pia1_kbA_r )`.  The argument
`kbd_74145_read` is the value returned by `m_kbd_74145->read()` and `io_line i`
the value returned by `m_io_line<i>->read()`.  The handler does not change the
driver state. -/
def e100_state.pia1_kbA_r (kbd_74145_read : Nat) (io_line : Nat → Nat) : Nat :=
  let pa := 0x00
  let ls145 := kbd_74145_read &&& 0x3ff
  let pa :=
    match ls145 with
    | 0 => 0x00
    | 1 => UINT8 (NOT32 (io_line 0) &&& 0xff)
    | 2 => UINT8 (NOT32 (io_line 1) &&& 0xff)
    | 4 => UINT8 (NOT32 (io_line 2) &&& 0xff)
    | 8 => UINT8 (NOT32 (io_line 3) &&& 0xff)
    | 16 => UINT8 (NOT32 (io_line 4) &&& 0xff)
    | 32 => UINT8 (NOT32 (io_line 5) &&& 0xff)
    | 64 => UINT8 (NOT32 (io_line 6) &&& 0xff)
    | 128 => UINT8 (NOT32 (io_line 7) &&& 0xff)
    | 256 => UINT8 (NOT32 (io_line 8) &&& 0xff)
    | 512 => UINT8 (NOT32 (io_line 9) &&& 0xff)
    | _ => pa
  UINT8 (NOT32 pa)

/-! ## The scheduled-event queue and the periodic artwork timer -/

/-- Number of attoseconds in a second; virtual time is counted in attoseconds
("attoseconds-equivalent precision"). -/
def ATTOSECONDS_PER_SECOND : Nat := 10 ^ 18

/-- Number of attoseconds in a millisecond. -/
def ATTOSECONDS_PER_MILLISECOND : Nat := 10 ^ 15

/-- Modelled from the spec: `attotime::from_hz` is not part of the driver
sources; the period of a frequency of `hz` hertz, in attoseconds. -/
def attotime_from_hz (hz : Nat) : Nat := ATTOSECONDS_PER_SECOND / hz

/-- The period given to `MCFG_TIMER_DRIVER_ADD_PERIODIC("artwork_timer", ...,
scan_artwork, attotime::from_hz(10))` in the md6802 and mp68a machine
configurations. -/
def artwork_timer_period : Nat := attotime_from_hz 10

/-- Modelled from the spec: a `ScheduledEvent` of the scheduler (which is not
part of the driver sources), with its fire time, owning device, and for a
recurring event its period. -/
structure ScheduledEvent where
  fire_time : Nat
  owner : Nat
  recurring : Bool
  period : Nat
  deriving DecidableEq, Repr

/-- Modelled from the spec: the Scheduled-Event Queue with the virtual clock,
the pending events in the order they were scheduled, the state of the machine
the callbacks act on, and the record of the events fired so far as pairs
`(fire_time, owner)`, oldest first. -/
structure EventQueue (σ : Type) where
  clock : Nat
  pending : List ScheduledEvent
  machine : σ
  fired : List (Nat × Nat)

namespace EventQueue

variable {σ : Type}

/-- Modelled from the spec: registration of a recurring event at the current
clock value `t0`; it is first due one period later, at `t0 + period`.
"Scheduling a non-positive period for a recurring event is a configuration
error, reported at registration time": the result is `none`. -/
def schedule_periodic (q : EventQueue σ) (owner period : Nat) : Option (EventQueue σ) :=
  if period = 0 then none
  else some { q with pending := q.pending ++ [⟨q.clock + period, owner, true, period⟩] }

/-- Modelled from the spec: the earliest-due pending event; "events with equal
fire_time fire in the order they were scheduled (FIFO)". -/
def earliest : List ScheduledEvent → Option ScheduledEvent
  | [] => none
  | e :: es =>
    match earliest es with
    | none => some e
    | some m => if e.fire_time ≤ m.fire_time then some e else some m

/-- Modelled from the spec: `advance_to_next` fires the earliest-due event.  The
clock jumps to its fire time, the owner's callback runs on the machine
(instantaneously in virtual time), and a recurring event is "rescheduled at
`fire_time + period` after firing, using the original fire_time" as the base.
With nothing pending the queue is left as it is. -/
def advance_to_next (callback : Nat → Nat → σ → σ) (q : EventQueue σ) : EventQueue σ :=
  match earliest q.pending with
  | none => q
  | some e =>
    { clock := e.fire_time
      pending :=
        if e.recurring then
          q.pending.erase e ++ [{ e with fire_time := e.fire_time + e.period }]
        else q.pending.erase e
      machine := callback e.owner e.fire_time q.machine
      fired := q.fired ++ [(e.fire_time, e.owner)] }

/-- The queue after `n` events have been fired. -/
def run (callback : Nat → Nat → σ → σ) : Nat → EventQueue σ → EventQueue σ
  | 0, q => q
  | n + 1, q => run callback n (advance_to_next callback q)

/-- The fire times recorded for the events owned by `owner`, oldest first. -/
def firings_of (owner : Nat) (q : EventQueue σ) : List Nat :=
  (q.fired.filter (fun x => x.2 = owner)).map (fun x => x.1)

end EventQueue

/-- The callbacks of a Didact machine as seen by the scheduler: the event owned
by device `timer` runs `scan_artwork` (with the driver's `machine_reset` and the
value `io_line4 t` of port `LINE4` at fire time `t`), any other event runs
`other`. -/
def didact_callback (timer : Nat) (machine_reset : didact_state → didact_state)
    (io_line4 : Nat → Nat) (other : Nat → Nat → didact_state → didact_state)
    (owner fire_time : Nat) (st : didact_state) : didact_state :=
  if owner = timer then didact_state.scan_artwork machine_reset st (io_line4 fire_time)
  else other owner fire_time st

namespace EventQueue

variable {σ : Type}

/-- The pending event of a periodic timer owned by `T`, registered at `t0` with
period `P`, after it has fired `k` times. -/
def timer_event (t0 P T k : Nat) : ScheduledEvent :=
  ⟨t0 + (k + 1) * P, T, true, P⟩

/-- The fire times `t0 + P, t0 + 2P, ..., t0 + kP`. -/
def expected_firings (t0 P k : Nat) : List Nat :=
  (List.range k).map (fun j => t0 + (j + 1) * P)

/-- How far an event of another owner lies before the instant `f` (plus one),
0 for the timer's own event. -/
def weight (T f : Nat) (e : ScheduledEvent) : Nat :=
  if e.owner = T then 0 else f + 1 - e.fire_time

/-- Total weight of the pending events: a bound on the number of events that
fire before the one due at `f`. -/
def potential (T f : Nat) (l : List ScheduledEvent) : Nat :=
  (l.map (weight T f)).sum

/-- Invariant of a queue holding the periodic timer of `T` after `k` firings:
exactly one event of `T` is pending, due at `t0 + (k+1)P`; every recurring
event has a positive period; the recorded firings of `T` are
`t0 + P, ..., t0 + kP`. -/
def TimerInv (t0 P T : Nat) (q : EventQueue σ) (k : Nat) : Prop :=
  q.pending.filter (fun e => e.owner = T) = [timer_event t0 P T k] ∧
  (∀ e ∈ q.pending, e.recurring = true → 0 < e.period) ∧
  firings_of T q = expected_firings t0 P k

end EventQueue

/-! ## Bit masks as arithmetic -/

/-- Bitwise AND splits at any bit position `k`. -/
theorem land_split (a m k : Nat) :
    a &&& m = ((a / 2 ^ k) &&& (m / 2 ^ k)) * 2 ^ k + ((a % 2 ^ k) &&& (m % 2 ^ k)) := by
  apply Nat.eq_of_testBit_eq
  intro i
  have hlt : (a % 2 ^ k) &&& (m % 2 ^ k) < 2 ^ k :=
    Nat.and_lt_two_pow _ (Nat.mod_lt _ (Nat.two_pow_pos k))
  rw [Nat.mul_comm, Nat.testBit_mul_pow_two_add _ hlt]
  by_cases h : i < k
  · simp [h, Nat.testBit_and, Nat.testBit_mod_two_pow]
  · have hk : k + (i - k) = i := by omega
    simp [h, Nat.testBit_and, ← Nat.shiftRight_eq_div_pow, Nat.testBit_shiftRight, hk]

/-- AND with a mask of `n` low ones is reduction modulo `2 ^ n`. -/
theorem land_ones (x m n : Nat) (h : m + 1 = 2 ^ n) : x &&& m = x % (m + 1) := by
  have hm : m = 2 ^ n - 1 := by omega
  rw [h, hm]
  exact Nat.and_pow_two_sub_one_eq_mod x n

/-- Clearing the bits `lo .. hi-1` of a `w`-bit value: `m` has ones everywhere
below bit `w` except in that window. -/
theorem land_clear_window (w a m lo hi : Nat) (ha : a < 2 ^ w)
    (hhi : m / 2 ^ hi + 1 = 2 ^ (w - hi)) (hmid : m % 2 ^ hi / 2 ^ lo = 0)
    (hlo : m % 2 ^ hi % 2 ^ lo + 1 = 2 ^ lo) (hle : lo ≤ hi) (hw : hi ≤ w) :
    a &&& m = a / 2 ^ hi * 2 ^ hi + a % 2 ^ lo := by
  rw [land_split a m hi, land_split (a % 2 ^ hi) (m % 2 ^ hi) lo, hmid, Nat.and_zero,
    land_ones _ _ _ hhi, land_ones _ _ _ hlo, hhi, hlo]
  have h1 : a / 2 ^ hi < 2 ^ (w - hi) := by
    rw [Nat.div_lt_iff_lt_mul (Nat.two_pow_pos hi), ← Nat.pow_add]
    have : w - hi + hi = w := by omega
    rw [this]; exact ha
  rw [Nat.mod_eq_of_lt h1, Nat.mod_mod_of_dvd _ (Nat.pow_dvd_pow 2 hle), Nat.mod_mod]
  omega

/-- Bits of the mask above the value do not matter. -/
theorem land_drop_high (a m k : Nat) (ha : a < 2 ^ k) : a &&& m = a &&& (m % 2 ^ k) := by
  rw [land_split a m k, Nat.div_eq_of_lt ha, Nat.zero_and, Nat.mod_eq_of_lt ha]
  omega

/-! ## The mirror masks of the four maps, on 16-bit addresses -/

theorem effective_address_0000 (a : Nat) (ha : a < 65536) : effective_address 0 a = a := by
  unfold effective_address
  rw [land_drop_high a _ 16 ha]
  exact (land_ones a 65535 16 (by decide)).trans (Nat.mod_eq_of_lt ha)

theorem effective_address_07e0 (a : Nat) (ha : a < 65536) :
    effective_address 0x07e0 a = a / 2048 * 2048 + a % 32 :=
  land_clear_window 32 a _ 5 11 (by omega) (by decide) (by decide) (by decide) (by decide)
    (by decide)

theorem effective_address_1800 (a : Nat) (ha : a < 65536) :
    effective_address 0x1800 a = a / 8192 * 8192 + a % 2048 :=
  land_clear_window 32 a _ 11 13 (by omega) (by decide) (by decide) (by decide) (by decide)
    (by decide)

theorem effective_address_1ffc (a : Nat) (ha : a < 65536) :
    effective_address 0x1ffc a = a / 8192 * 8192 + a % 4 :=
  land_clear_window 32 a _ 2 13 (by omega) (by decide) (by decide) (by decide) (by decide)
    (by decide)

theorem effective_address_0fc0 (a : Nat) (ha : a < 65536) :
    effective_address 0x0fc0 a = a / 4096 * 4096 + a % 64 :=
  land_clear_window 32 a _ 6 12 (by omega) (by decide) (by decide) (by decide) (by decide)
    (by decide)

theorem effective_address_1c00 (a : Nat) (ha : a < 65536) :
    effective_address 0x1c00 a = a / 8192 * 8192 + a % 1024 :=
  land_clear_window 32 a _ 10 13 (by omega) (by decide) (by decide) (by decide) (by decide)
    (by decide)

theorem effective_address_f000 (a : Nat) (ha : a < 65536) :
    effective_address 0xf000 a = a % 4096 := by
  unfold effective_address
  rw [land_drop_high a _ 16 ha]
  exact land_ones a 4095 12 (by decide)

theorem effective_address_f0fc (a : Nat) (ha : a < 65536) :
    effective_address 0xf0fc a = a % 4096 / 256 * 256 + a % 4 := by
  unfold effective_address
  rw [land_drop_high a _ 16 ha, land_split a _ 12]
  have h0 : (0xFFFFFFFF ^^^ 0xf0fc) % 2 ^ 16 / 2 ^ 12 = 0 := by decide
  rw [h0, Nat.and_zero,
    land_clear_window 12 (a % 2 ^ 12) _ 2 8 (Nat.mod_lt _ (by decide)) (by decide) (by decide)
      (by decide) (by decide) (by decide)]
  omega

theorem effective_address_f400 (a : Nat) (ha : a < 65536) :
    effective_address 0xf400 a = a % 4096 / 2048 * 2048 + a % 1024 := by
  unfold effective_address
  rw [land_drop_high a _ 16 ha, land_split a _ 12]
  have h0 : (0xFFFFFFFF ^^^ 0xf400) % 2 ^ 16 / 2 ^ 12 = 0 := by decide
  rw [h0, Nat.and_zero,
    land_clear_window 12 (a % 2 ^ 12) _ 10 11 (Nat.mod_lt _ (by decide)) (by decide) (by decide)
      (by decide) (by decide) (by decide)]
  omega

/-! ## Esselte 100: simultaneous access to the two PIAs -/

namespace e100_state

variable {σ₁ σ₂ : Type}

theorem and_08_of_and_18 (offset : Nat) : offset &&& 0x08 = (offset &&& 0x18) &&& 0x08 := by
  rw [Nat.and_assoc]; rfl

theorem and_10_of_and_18 (offset : Nat) : offset &&& 0x10 = (offset &&& 0x18) &&& 0x10 := by
  rw [Nat.and_assoc]; rfl

/-- C1: in `pia_r`, when both chip-select bits of the offset are set
(`(offset & 0x18) == 0x18`) and the two PIAs return the bytes `d1` and `d2`
for that offset, the handler returns `d1 & d2`; PIA1 and then PIA2 are each
read exactly once (one read call each, at that offset, and each device is
left in the state its single read produces). -/
theorem pia_r_dual_access (P1 : pia6821_device σ₁) (P2 : pia6821_device σ₂)
    (st : e100_state σ₁ σ₂) (offset d1 d2 : Nat)
    (hsel : offset &&& 0x18 = 0x18)
    (h1 : (P1.read st.m_pia1 offset).1 = d1) (hb1 : d1 < 256)
    (h2 : (P2.read st.m_pia2 offset).1 = d2) (hb2 : d2 < 256) :
    (pia_r P1 P2 st offset).1 = d1 &&& d2 ∧
    (pia_r P1 P2 st offset).2.m_pia1 = (P1.read st.m_pia1 offset).2 ∧
    (pia_r P1 P2 st offset).2.m_pia2 = (P2.read st.m_pia2 offset).2 ∧
    issued st.calls (pia_r P1 P2 st offset).2.calls
      = [Access.rd Chip.PIA1 offset, Access.rd Chip.PIA2 offset] ∧
    readCount Chip.PIA1 (issued st.calls (pia_r P1 P2 st offset).2.calls) = 1 ∧
    readCount Chip.PIA2 (issued st.calls (pia_r P1 P2 st offset).2.calls) = 1 := by
  have hand : UINT8 (d1 &&& d2) = d1 &&& d2 :=
    Nat.mod_eq_of_lt (Nat.lt_of_le_of_lt Nat.and_le_left hb1)
  have hcalls : issued st.calls (pia_r P1 P2 st offset).2.calls
      = [Access.rd Chip.PIA1 offset, Access.rd Chip.PIA2 offset] := by
    simp [pia_r, hsel, pia1_read, pia2_read, issued]
  refine ⟨?_, ?_, ?_, hcalls, ?_, ?_⟩
  · simp only [pia_r, hsel, pia1_read, pia2_read, h1, h2]
    rw [show UINT8 d1 = d1 from Nat.mod_eq_of_lt hb1,
      show UINT8 d2 = d2 from Nat.mod_eq_of_lt hb2, hand]
  · simp [pia_r, hsel, pia1_read, pia2_read]
  · simp [pia_r, hsel, pia1_read, pia2_read]
  · rw [hcalls]; simp [readCount]
  · rw [hcalls]; simp [readCount]

/-- Witness of C1 on the spec's example: device values `0x3C` and `0xF0`
combine to `0x30`. -/
theorem pia_r_dual_access_witness :
    (0x18 &&& 0x18 = 0x18) ∧
    (pia_r (constPia 0x3C) (constPia 0xF0) ⟨(), (), []⟩ 0x18).1 = 0x30 ∧
    readCount Chip.PIA1
      (issued [] (pia_r (constPia 0x3C) (constPia 0xF0) ⟨(), (), []⟩ 0x18).2.calls) = 1 ∧
    readCount Chip.PIA2
      (issued [] (pia_r (constPia 0x3C) (constPia 0xF0) ⟨(), (), []⟩ 0x18).2.calls) = 1 :=
  have h := pia_r_dual_access (constPia 0x3C) (constPia 0xF0) ⟨(), (), []⟩ 0x18 0x3C 0xF0
    (by decide) rfl (by decide) rfl (by decide)
  ⟨by decide, h.1, h.2.2.2.2.1, h.2.2.2.2.2⟩

/-- C2: `pia_w` forwards the write (same offset, same data) to PIA1 exactly
when offset bit `0x08` is set and to PIA2 exactly when offset bit `0x10` is
set, PIA1 first; with both bits set both PIAs get the identical write. -/
theorem pia_w_forwards (P1 : pia6821_device σ₁) (P2 : pia6821_device σ₂)
    (st : e100_state σ₁ σ₂) (offset data : Nat) :
    issued st.calls (pia_w P1 P2 st offset data).calls
      = (if offset &&& 0x08 = 0x08 then [Access.wr Chip.PIA1 offset data] else []) ++
        (if offset &&& 0x10 = 0x10 then [Access.wr Chip.PIA2 offset data] else []) ∧
    ((∃ o d, Access.wr Chip.PIA1 o d ∈ issued st.calls (pia_w P1 P2 st offset data).calls)
      ↔ offset &&& 0x08 = 0x08) ∧
    ((∃ o d, Access.wr Chip.PIA2 o d ∈ issued st.calls (pia_w P1 P2 st offset data).calls)
      ↔ offset &&& 0x10 = 0x10) ∧
    (pia_w P1 P2 st offset data).m_pia1
      = (if offset &&& 0x08 = 0x08 then P1.write st.m_pia1 offset data else st.m_pia1) ∧
    (pia_w P1 P2 st offset data).m_pia2
      = (if offset &&& 0x10 = 0x10 then P2.write st.m_pia2 offset data else st.m_pia2) := by
  by_cases h8 : offset &&& 0x08 = 0x08 <;> by_cases h10 : offset &&& 0x10 = 0x10 <;>
    simp [pia_w, h8, h10, pia1_write, pia2_write, issued]

/-- C3: in `pia_r`, when exactly one chip-select bit is set, exactly one device
serves the read: for `(offset & 0x18) == 0x08` the result is PIA1's byte and
PIA2 is untouched, for `(offset & 0x18) == 0x10` the result is PIA2's byte and
PIA1 is untouched; the only call made is the one read. -/
theorem pia_r_single_access (P1 : pia6821_device σ₁) (P2 : pia6821_device σ₂)
    (st : e100_state σ₁ σ₂) (offset : Nat)
    (hsel : offset &&& 0x18 = 0x08 ∨ offset &&& 0x18 = 0x10) :
    pia_r P1 P2 st offset =
      if offset &&& 0x18 = 0x08 then
        (UINT8 (P1.read st.m_pia1 offset).1,
          { m_pia1 := (P1.read st.m_pia1 offset).2, m_pia2 := st.m_pia2,
            calls := st.calls ++ [Access.rd Chip.PIA1 offset] })
      else
        (UINT8 (P2.read st.m_pia2 offset).1,
          { m_pia1 := st.m_pia1, m_pia2 := (P2.read st.m_pia2 offset).2,
            calls := st.calls ++ [Access.rd Chip.PIA2 offset] }) := by
  rcases hsel with h | h
  · simp [pia_r, h, pia1_read]
  · simp [pia_r, h, pia2_read]

/-- Witness of C3, once for each chip select. -/
theorem pia_r_single_access_witness :
    (pia_r (constPia 0x3C) (constPia 0xF0) ⟨(), (), []⟩ 0x0b
        = (0x3C, ⟨(), (), [Access.rd Chip.PIA1 0x0b]⟩)) ∧
    (pia_r (constPia 0x3C) (constPia 0xF0) ⟨(), (), []⟩ 0x12
        = (0xF0, ⟨(), (), [Access.rd Chip.PIA2 0x12]⟩)) :=
  ⟨pia_r_single_access (constPia 0x3C) (constPia 0xF0) ⟨(), (), []⟩ 0x0b (Or.inl (by decide)),
   pia_r_single_access (constPia 0x3C) (constPia 0xF0) ⟨(), (), []⟩ 0x12 (Or.inr (by decide))⟩

/-- C4: an access that selects neither PIA (`(offset & 0x18) == 0`) is absorbed:
`pia_r` returns the default 0 and `pia_w` drops the write, and in both cases
the machine state (both PIAs and the list of device calls) is unchanged. -/
theorem pia_unselected (P1 : pia6821_device σ₁) (P2 : pia6821_device σ₂)
    (st : e100_state σ₁ σ₂) (offset data : Nat) (hsel : offset &&& 0x18 = 0) :
    pia_r P1 P2 st offset = (0, st) ∧ pia_w P1 P2 st offset data = st := by
  have h8 : offset &&& 0x08 = 0 := by rw [and_08_of_and_18, hsel]; rfl
  have h10 : offset &&& 0x10 = 0 := by rw [and_10_of_and_18, hsel]; rfl
  constructor
  · simp [pia_r, hsel]
  · simp [pia_w, h8, h10]

/-- Witness of C4 at offset `0x07`. -/
theorem pia_unselected_witness :
    (0x07 &&& 0x18 = 0) ∧
    pia_r (constPia 0x3C) (constPia 0xF0) ⟨(), (), []⟩ 0x07 = (0, ⟨(), (), []⟩) ∧
    pia_w (constPia 0x3C) (constPia 0xF0) ⟨(), (), []⟩ 0x07 0xAA = ⟨(), (), []⟩ :=
  ⟨by decide, pia_unselected (constPia 0x3C) (constPia 0xF0) ⟨(), (), []⟩ 0x07 0xAA (by decide)⟩

end e100_state

/-! ## Routing lemmas -/

theorem matches_eq_inRange (e : address_map_entry) (a : Nat) (h : e.addrstart ≤ e.addrend) :
    e.matches a = e.inRange a := by
  simp only [address_map_entry.matches, address_map_entry.inRange, address_map_entry.base,
    address_map_entry.size]
  congr 1
  apply propext
  constructor <;> intro ⟨h1, h2⟩ <;> exact ⟨h1, by omega⟩

theorem route_cons_of_matches (u : Nat) (e : address_map_entry) (es : List address_map_entry)
    (a : Nat) (h : e.matches a = true) :
    address_map.route ⟨u, e :: es⟩ a = some (e.handler, e.offset a) := by
  simp [address_map.route, List.find?_cons, h]

theorem route_cons_of_not_matches (u : Nat) (e : address_map_entry)
    (es : List address_map_entry) (a : Nat) (h : e.matches a = false) :
    address_map.route ⟨u, e :: es⟩ a = address_map.route ⟨u, es⟩ a := by
  simp [address_map.route, List.find?_cons, h]

theorem some_pair_congr {h : Handler} {x y : Nat} (hxy : x = y) :
    (some (h, x) : Option (Handler × Nat)) = some (h, y) := by rw [hxy]

theorem route_nil (u a : Nat) : address_map.route ⟨u, []⟩ a = none := rfl

theorem route_handler_mem (m : address_map) (a : Nat) (h : Handler) (off : Nat)
    (hr : m.route a = some (h, off)) : ∃ e ∈ m.entries, e.handler = h := by
  unfold address_map.route at hr
  cases hf : m.entries.find? (fun e => e.matches a) with
  | none => rw [hf] at hr; cases hr
  | some e =>
    rw [hf] at hr
    simp only [Option.map_some', Option.some.injEq, Prod.mk.injEq] at hr
    exact ⟨e, List.mem_of_find?_eq_some hf, hr.1⟩

theorem filter_length_le_one {α : Type} (p : α → Bool) (l : List α)
    (h : l.Pairwise (fun x y => ¬(p x = true ∧ p y = true))) : (l.filter p).length ≤ 1 := by
  induction l with
  | nil => simp
  | cons x xs ih =>
    rw [List.pairwise_cons] at h
    by_cases hx : p x = true
    · have hnil : xs.filter p = [] := by
        rw [List.filter_eq_nil_iff]
        intro y hy hpy
        exact h.1 y hy ⟨hx, hpy⟩
      simp [List.filter_cons, hx, hnil]
    · simp only [List.filter_cons, hx]
      exact ih h.2

/-! ## md6802: mirrors of the PIA, RAM and ROM ranges -/

/-- The complete decoding of `md6802_map` on 16-bit addresses, in arithmetic form. -/
theorem md6802_route (a : Nat) (ha : a < 65536) :
    md6802_map.route a =
      if a ≤ 0x1FFF then some (Handler.ram, a % 2048)
      else if 0xA000 ≤ a ∧ a ≤ 0xBFFF then some (Handler.pia Chip.PIA1, a % 4)
      else if 0xC000 ≤ a ∧ a ≤ 0xDFFF then some (Handler.pia Chip.PIA2, a % 4)
      else if 0xE000 ≤ a then some (Handler.rom Region.maincpu 0xe000, a % 2048)
      else none := by
  have e1 := effective_address_1800 a ha
  have e2 := effective_address_1ffc a ha
  unfold md6802_map
  by_cases h1 : a ≤ 0x1FFF
  · rw [route_cons_of_matches _ _ _ _
      (by simp only [address_map_entry.matches, address_map_entry.base,
            address_map_entry.size, e1, decide_eq_true_eq]; omega)]
    rw [if_pos h1]
    simp only [address_map_entry.offset, address_map_entry.base, e1]
    exact some_pair_congr (by omega)
  rw [route_cons_of_not_matches _ _ _ _
      (by simp only [address_map_entry.matches, address_map_entry.base,
            address_map_entry.size, e1, decide_eq_false_iff_not]; omega)]
  by_cases h2 : 0xA000 ≤ a ∧ a ≤ 0xBFFF
  · rw [route_cons_of_matches _ _ _ _
      (by simp only [address_map_entry.matches, address_map_entry.base,
            address_map_entry.size, e2, decide_eq_true_eq]; omega)]
    rw [if_neg h1, if_pos h2]
    simp only [address_map_entry.offset, address_map_entry.base, e2]
    exact some_pair_congr (by omega)
  rw [route_cons_of_not_matches _ _ _ _
      (by simp only [address_map_entry.matches, address_map_entry.base,
            address_map_entry.size, e2, decide_eq_false_iff_not]; omega)]
  by_cases h3 : 0xC000 ≤ a ∧ a ≤ 0xDFFF
  · rw [route_cons_of_matches _ _ _ _
      (by simp only [address_map_entry.matches, address_map_entry.base,
            address_map_entry.size, e2, decide_eq_true_eq]; omega)]
    rw [if_neg h1, if_neg h2, if_pos h3]
    simp only [address_map_entry.offset, address_map_entry.base, e2]
    exact some_pair_congr (by omega)
  rw [route_cons_of_not_matches _ _ _ _
      (by simp only [address_map_entry.matches, address_map_entry.base,
            address_map_entry.size, e2, decide_eq_false_iff_not]; omega)]
  by_cases h4 : 0xE000 ≤ a
  · rw [route_cons_of_matches _ _ _ _
      (by simp only [address_map_entry.matches, address_map_entry.base,
            address_map_entry.size, e1, decide_eq_true_eq]; omega)]
    rw [if_neg h1, if_neg h2, if_neg h3, if_pos h4]
    simp only [address_map_entry.offset, address_map_entry.base, e1]
    exact some_pair_congr (by omega)
  rw [route_cons_of_not_matches _ _ _ _
      (by simp only [address_map_entry.matches, address_map_entry.base,
            address_map_entry.size, e1, decide_eq_false_iff_not]; omega)]
  rw [route_nil, if_neg h1, if_neg h2, if_neg h3, if_neg h4]

/-! ## Disjointness of the entries of each map -/

theorem e100_map_disjoint (a : Nat) (ha : a < 65536) :
    e100_map.entries.Pairwise (fun x y => ¬(x.inRange a = true ∧ y.inRange a = true)) := by
  have e0 := effective_address_0000 a ha
  have e1 := effective_address_07e0 a ha
  simp only [e100_map, AM_RANGE, List.pairwise_cons, List.mem_cons, List.mem_singleton,
    forall_eq_or_imp, forall_eq, address_map_entry.inRange, e0, e1, decide_eq_true_eq,
    List.not_mem_nil, List.Pairwise.nil, false_implies, implies_true, and_true]
  refine ⟨⟨?_, ?_, ?_, ?_⟩, ⟨?_, ?_, ?_⟩, ⟨?_, ?_⟩, ?_⟩ <;> omega

theorem md6802_map_disjoint (a : Nat) (ha : a < 65536) :
    md6802_map.entries.Pairwise (fun x y => ¬(x.inRange a = true ∧ y.inRange a = true)) := by
  have e1 := effective_address_1800 a ha
  have e2 := effective_address_1ffc a ha
  simp only [md6802_map, List.pairwise_cons, List.mem_cons, List.mem_singleton,
    forall_eq_or_imp, forall_eq, address_map_entry.inRange, e1, e2, decide_eq_true_eq,
    List.not_mem_nil, List.Pairwise.nil, false_implies, implies_true, and_true]
  refine ⟨⟨?_, ?_, ?_⟩, ⟨?_, ?_⟩, ?_⟩ <;> omega

theorem mp68a_map_disjoint (a : Nat) (ha : a < 65536) :
    mp68a_map.entries.Pairwise (fun x y => ¬(x.inRange a = true ∧ y.inRange a = true)) := by
  have e1 := effective_address_f000 a ha
  have e2 := effective_address_f0fc a ha
  have e3 := effective_address_f400 a ha
  simp only [mp68a_map, List.pairwise_cons, List.mem_cons, List.mem_singleton,
    forall_eq_or_imp, forall_eq, address_map_entry.inRange, e1, e2, e3, decide_eq_true_eq,
    List.not_mem_nil, List.Pairwise.nil, false_implies, implies_true, and_true]
  refine ⟨⟨?_, ?_, ?_, ?_⟩, ⟨?_, ?_, ?_⟩, ⟨?_, ?_⟩, ?_⟩ <;> omega

theorem ram_options_bounds (ram_size : Nat) (hs : ram_size ∈ ram_options) :
    4096 ≤ ram_size ∧ ram_size ≤ 32768 := by
  simp only [ram_options, List.mem_cons, List.mem_singleton, List.not_mem_nil, or_false] at hs
  omega

theorem swtpc_disjoint (ram_size a : Nat) (hs : ram_size ∈ ram_options) (ha : a < 65536) :
    (swtpc_state.machine_start ram_size).entries.Pairwise
      (fun x y => ¬(x.inRange a = true ∧ y.inRange a = true)) := by
  have hb := ram_options_bounds ram_size hs
  have e0 := effective_address_0000 a ha
  have e1 := effective_address_0fc0 a ha
  have e2 := effective_address_1c00 a ha
  simp only [swtpc_state.machine_start, swtpc_state.mem_map, AM_RANGE, List.pairwise_cons,
    List.mem_cons, List.mem_singleton,
    forall_eq_or_imp, forall_eq, address_map_entry.inRange, e0, e1, e2, decide_eq_true_eq,
    List.not_mem_nil, List.Pairwise.nil, false_implies, implies_true, and_true]
  refine ⟨⟨?_, ?_, ?_, ?_, ?_, ?_, ?_, ?_, ?_, ?_⟩, ⟨?_, ?_, ?_, ?_, ?_, ?_, ?_, ?_, ?_⟩,
    ⟨?_, ?_, ?_, ?_, ?_, ?_, ?_, ?_⟩, ⟨?_, ?_, ?_, ?_, ?_, ?_, ?_⟩, ⟨?_, ?_, ?_, ?_, ?_, ?_⟩,
    ⟨?_, ?_, ?_, ?_, ?_⟩, ⟨?_, ?_, ?_, ?_⟩, ⟨?_, ?_, ?_⟩, ⟨?_, ?_⟩, ?_⟩ <;> omega

/-! ## Routing through a map with disjoint entries -/

theorem route_of_inRange (m : address_map) (a : Nat) (e : address_map_entry)
    (hw : ∀ x ∈ m.entries, x.addrstart ≤ x.addrend)
    (hp : m.entries.Pairwise (fun x y => ¬(x.inRange a = true ∧ y.inRange a = true)))
    (he : e ∈ m.entries) (hm : e.inRange a = true) :
    m.route a = some (e.handler, e.offset a) := by
  obtain ⟨u, es⟩ := m
  induction es with
  | nil => cases he
  | cons x xs ih =>
    simp only at hw hp he ih ⊢
    rw [List.pairwise_cons] at hp
    have hxm : x.matches a = x.inRange a :=
      matches_eq_inRange x a (hw x (List.mem_cons_self x xs))
    by_cases hx : x.inRange a = true
    · rw [route_cons_of_matches u x xs a (hxm.trans hx)]
      rcases List.mem_cons.1 he with h | h
      · rw [h]
      · exact absurd ⟨hx, hm⟩ (hp.1 e h)
    · have hx2 : x.inRange a = false := by simpa using hx
      rw [route_cons_of_not_matches u x xs a (hxm.trans hx2)]
      rcases List.mem_cons.1 he with h | h
      · rw [h] at hm; exact absurd hm hx
      · exact ih (fun y hy => hw y (List.mem_cons_of_mem x hy)) hp.2 h

theorem route_none_of_not_matches (m : address_map) (a : Nat)
    (h : ∀ e ∈ m.entries, e.matches a = false) : m.route a = none := by
  unfold address_map.route
  rw [Option.map_eq_none', List.find?_eq_none]
  intro e he
  simp [h e he]

theorem read_of_route_none (m : address_map) (backend : Handler → Nat → Nat) (a : Nat)
    (h : m.route a = none) : m.read backend a = m.unmap_value := by
  simp [address_map.read, h]

theorem read_of_route_some (m : address_map) (backend : Handler → Nat → Nat) (a : Nat)
    (hd : Handler) (off : Nat) (h : m.route a = some (hd, off)) :
    m.read backend a = UINT8 (backend hd off) := by
  simp [address_map.read, h]

/-! ## Masks used in the statements -/

theorem and_3 (a : Nat) : a &&& 3 = a % 4 := land_ones a 3 2 (by decide)

theorem and_1f (a : Nat) : a &&& 0x1F = a % 32 := land_ones a 0x1F 5 (by decide)

theorem and_3ff (a : Nat) : a &&& 0x3FF = a % 1024 := land_ones a 0x3FF 10 (by decide)

theorem and_7ff (a : Nat) : a &&& 0x7FF = a % 2048 := land_ones a 0x7FF 11 (by decide)

theorem shr2_and_7 (a : Nat) : (a >>> 2) &&& 7 = a / 4 % 8 := by
  rw [Nat.shiftRight_eq_div_pow]
  exact land_ones (a / 2 ^ 2) 7 3 (by decide)

theorem and_20 (a : Nat) : a &&& 0x20 = a / 32 % 2 * 32 := by
  rw [land_split a 0x20 5]
  have h1 : 0x20 / 2 ^ 5 = 1 := by decide
  have h2 : 0x20 % 2 ^ 5 = 0 := by decide
  rw [h1, h2, Nat.and_zero, Nat.and_one_is_mod]
  omega

/-! ## Claims about md6802_map -/

/-- C5 (as stated, refuted): with the PIA1 range of `md6802_map` (base `0xA000`,
size 4, mirror mask `0x1FFC`) it is not the case that reads at `0xA000`,
`0xC000` and `0xE000` all route to PIA1 at relative offset 0.  The mask leaves
address bits 13..15 decoded: the PIA1 entry does not match `0xC000` or
`0xE000`, which route to PIA2 and to the ROM. -/
theorem md6802_mirror_refuted :
    ¬ (md6802_map.route 0xA000 = some (Handler.pia Chip.PIA1, 0) ∧
       md6802_map.route 0xC000 = some (Handler.pia Chip.PIA1, 0) ∧
       md6802_map.route 0xE000 = some (Handler.pia Chip.PIA1, 0)) ∧
    address_map_entry.matches ⟨0xa000, 0xa003, 0x1ffc, Handler.pia Chip.PIA1⟩ 0xC000 = false ∧
    address_map_entry.matches ⟨0xa000, 0xa003, 0x1ffc, Handler.pia Chip.PIA1⟩ 0xE000 = false := by
  decide

/-- C5 (amended): with the PIA1 range of `md6802_map` (base `0xA000`, size 4,
mirror mask `0x1FFC`), reads at `0xA000`, `0xA004`, `0xA008`, ..., `0xBFFC`
(the addresses `0xA000 + 4k`, `k < 2048`, which differ from `0xA000` only in
mirror-mask bits) all route to PIA1 with the same relative offset 0; `0xC000`
routes to PIA2 and `0xE000` to the ROM, each at relative offset 0. -/
theorem md6802_pia1_mirrors (k : Nat) (hk : k < 2048) :
    md6802_map.route (0xA000 + 4 * k) = some (Handler.pia Chip.PIA1, 0) ∧
    md6802_map.route 0xC000 = some (Handler.pia Chip.PIA2, 0) ∧
    md6802_map.route 0xE000 = some (Handler.rom Region.maincpu 0xe000, 0) := by
  refine ⟨?_, by decide, by decide⟩
  rw [md6802_route _ (by omega), if_neg (by omega), if_pos (by omega)]
  exact some_pair_congr (by omega)

/-- Witness of the amended C5 at the last mirror, `0xBFFC`. -/
theorem md6802_pia1_mirrors_witness :
    2047 < 2048 ∧ md6802_map.route (0xA000 + 4 * 2047) = some (Handler.pia Chip.PIA1, 0) :=
  ⟨by decide, (md6802_pia1_mirrors 2047 (by decide)).1⟩

/-- C10: in `md6802_map` an entry matches a 16-bit address `a` exactly when
`a & ~mirror` lies in `[base, base+size)` (equivalently in `[start, end]`);
every `a` in `0x0000..0x1FFF` selects RAM offset `a & 0x7FF`, every `a` in
`0xA000..0xBFFF` selects PIA1 register `a & 3`, every `a` in `0xC000..0xDFFF`
selects PIA2 register `a & 3`, every `a` in `0xE000..0xFFFF` selects the ROM at
region offset `0xE000 + (a & 0x7FF)`, and `0x2000..0x9FFF` is unmapped. -/
theorem md6802_decoding (a : Nat) (ha : a < 65536) :
    (∀ e ∈ md6802_map.entries,
      (e.matches a = true ↔
        e.base ≤ a &&& (0xFFFFFFFF ^^^ e.addrmirror) ∧
        a &&& (0xFFFFFFFF ^^^ e.addrmirror) < e.base + e.size) ∧
      (e.matches a = true ↔
        e.addrstart ≤ a &&& (0xFFFFFFFF ^^^ e.addrmirror) ∧
        a &&& (0xFFFFFFFF ^^^ e.addrmirror) ≤ e.addrend)) ∧
    md6802_map.route a =
      (if a ≤ 0x1FFF then some (Handler.ram, a &&& 0x7FF)
       else if 0xA000 ≤ a ∧ a ≤ 0xBFFF then some (Handler.pia Chip.PIA1, a &&& 3)
       else if 0xC000 ≤ a ∧ a ≤ 0xDFFF then some (Handler.pia Chip.PIA2, a &&& 3)
       else if 0xE000 ≤ a then some (Handler.rom Region.maincpu 0xe000, a &&& 0x7FF)
       else none) ∧
    (md6802_map.route a).bind region_offset =
      (if 0xE000 ≤ a then some (Region.maincpu, 0xE000 + (a &&& 0x7FF)) else none) := by
  have hroute := md6802_route a ha
  refine ⟨?_, ?_, ?_⟩
  · intro e he
    have hw : e.addrstart ≤ e.addrend := by
      revert e; decide
    refine ⟨?_, ?_⟩
    · simp [address_map_entry.matches, effective_address]
    · rw [matches_eq_inRange e a hw]
      simp [address_map_entry.inRange, effective_address]
  · rw [hroute, and_7ff, and_3]
  · rw [hroute, and_7ff]
    by_cases h1 : a ≤ 0x1FFF
    · rw [if_pos h1, if_neg (by omega)]; rfl
    by_cases h2 : 0xA000 ≤ a ∧ a ≤ 0xBFFF
    · rw [if_neg h1, if_pos h2, if_neg (by omega)]; rfl
    by_cases h3 : 0xC000 ≤ a ∧ a ≤ 0xDFFF
    · rw [if_neg h1, if_neg h2, if_pos h3, if_neg (by omega)]; rfl
    by_cases h4 : 0xE000 ≤ a
    · rw [if_neg h1, if_neg h2, if_neg h3, if_pos h4, if_pos h4]; rfl
    · rw [if_neg h1, if_neg h2, if_neg h3, if_neg h4, if_neg h4]; rfl

/-- Witness of C10 at `0xBFFE`, a mirror of PIA1 register 2. -/
theorem md6802_decoding_witness :
    0xBFFE < 65536 ∧ md6802_map.route 0xBFFE = some (Handler.pia Chip.PIA1, 2) :=
  ⟨by decide, (md6802_decoding 0xBFFE (by decide)).2.1⟩

/-! ## Claims about all four maps -/

/-- C6: under the rule "an entry matches `a` iff `a & ~mirror` lies in
`[start, end]`", every 16-bit address is matched by at most one entry of
`e100_map`, of `md6802_map`, of `mp68a_map`, and of the swtpc program space
(`mem_map` plus the RAM installed by `machine_start` at `[0, size-1]`) for
every RAM size the configuration allows (4K, 8K, ..., 32K). -/
theorem at_most_one_entry_matches (a ram_size : Nat) (ha : a < 65536)
    (hs : ram_size ∈ ram_options) :
    (e100_map.entries.filter (fun e => e.inRange a)).length ≤ 1 ∧
    (md6802_map.entries.filter (fun e => e.inRange a)).length ≤ 1 ∧
    (mp68a_map.entries.filter (fun e => e.inRange a)).length ≤ 1 ∧
    ((swtpc_state.machine_start ram_size).entries.filter (fun e => e.inRange a)).length ≤ 1 :=
  ⟨filter_length_le_one _ _ (e100_map_disjoint a ha),
   filter_length_le_one _ _ (md6802_map_disjoint a ha),
   filter_length_le_one _ _ (mp68a_map_disjoint a ha),
   filter_length_le_one _ _ (swtpc_disjoint ram_size a hs ha)⟩

/-- Witness of C6 at `0xC81B` (inside the Esselte 100 PIA window) with 4K of RAM. -/
theorem at_most_one_entry_matches_witness :
    (0xC81B < 65536 ∧ 4096 ∈ ram_options) ∧
    (e100_map.entries.filter (fun e => e.inRange 0xC81B)).length ≤ 1 ∧
    (md6802_map.entries.filter (fun e => e.inRange 0xC81B)).length ≤ 1 ∧
    (mp68a_map.entries.filter (fun e => e.inRange 0xC81B)).length ≤ 1 ∧
    ((swtpc_state.machine_start 4096).entries.filter (fun e => e.inRange 0xC81B)).length ≤ 1 :=
  ⟨⟨by decide, by decide⟩, at_most_one_entry_matches 0xC81B 4096 (by decide) (by decide)⟩

/-! ## Claims about the swtpc map -/

theorem mem_map_disjoint (a : Nat) (ha : a < 65536) :
    swtpc_state.mem_map.entries.Pairwise
      (fun x y => ¬(x.inRange a = true ∧ y.inRange a = true)) :=
  (List.pairwise_cons.1 (swtpc_disjoint 4096 a (by decide) ha)).2

theorem mem_map_route_of_inRange (a : Nat) (e : address_map_entry) (ha : a < 65536)
    (he : e ∈ swtpc_state.mem_map.entries) (hm : e.inRange a = true) :
    swtpc_state.mem_map.route a = some (e.handler, e.offset a) :=
  route_of_inRange _ a e (by decide) (mem_map_disjoint a ha) he hm

theorem mem_map_no_io6 (b off : Nat) :
    swtpc_state.mem_map.route b ≠ some (Handler.io 6, off) := by
  intro h
  obtain ⟨e, he, h6⟩ := route_handler_mem _ _ _ _ h
  revert e
  decide

/-- C7: in `mem_map`, for every address `a` in `0x8000..0x8FFF` with A5 clear,
with `s = (a >> 2) & 7`: `s` in `0..4` selects `io0..io4` and `s = 7` selects
`io7`, each at offset `a & 3`; `s = 5` and `s = 6` both select `io5` at offset
`(a & 0x1F) - 0x14`.  The result is that of the address `0x8000 + (a & 0x1F)`,
so A6..A11 play no part, and no address at all selects `io6`. -/
theorem mem_map_io_decoding (a : Nat) (h1 : 0x8000 ≤ a) (h2 : a ≤ 0x8FFF)
    (h5 : a &&& 0x20 = 0) :
    swtpc_state.mem_map.route a =
      some (Handler.io (if (a >>> 2) &&& 7 ≤ 4 then (a >>> 2) &&& 7
                        else if (a >>> 2) &&& 7 = 7 then 7 else 5),
            if (a >>> 2) &&& 7 = 5 ∨ (a >>> 2) &&& 7 = 6 then (a &&& 0x1F) - 0x14
            else a &&& 3) ∧
    swtpc_state.mem_map.route a = swtpc_state.mem_map.route (0x8000 + (a &&& 0x1F)) ∧
    (∀ b off, swtpc_state.mem_map.route b ≠ some (Handler.io 6, off)) := by
  have key : ∀ a, 0x8000 ≤ a → a ≤ 0x8FFF → a / 32 % 2 = 0 →
      swtpc_state.mem_map.route a =
        some (Handler.io (if a / 4 % 8 ≤ 4 then a / 4 % 8 else if a / 4 % 8 = 7 then 7 else 5),
              if a / 4 % 8 = 5 ∨ a / 4 % 8 = 6 then a % 32 - 0x14 else a % 4) := by
    intro a h1 h2 h5
    have e1 := effective_address_0fc0 a (by omega)
    have hcase : a / 4 % 8 = 0 ∨ a / 4 % 8 = 1 ∨ a / 4 % 8 = 2 ∨ a / 4 % 8 = 3 ∨
        a / 4 % 8 = 4 ∨ a / 4 % 8 = 5 ∨ a / 4 % 8 = 6 ∨ a / 4 % 8 = 7 := by omega
    rcases hcase with hk | hk | hk | hk | hk | hk | hk | hk
    · rw [mem_map_route_of_inRange a ⟨0x8000, 0x8003, 0x0fc0, Handler.io 0⟩ (by omega) (by decide)
        (by simp only [address_map_entry.inRange, e1, decide_eq_true_eq]; omega), hk]
      simp only [address_map_entry.offset, address_map_entry.base, e1, Option.some.injEq,
        Prod.mk.injEq, Handler.io.injEq]
      norm_num
      omega
    · rw [mem_map_route_of_inRange a ⟨0x8004, 0x8007, 0x0fc0, Handler.io 1⟩ (by omega) (by decide)
        (by simp only [address_map_entry.inRange, e1, decide_eq_true_eq]; omega), hk]
      simp only [address_map_entry.offset, address_map_entry.base, e1, Option.some.injEq,
        Prod.mk.injEq, Handler.io.injEq]
      norm_num
      omega
    · rw [mem_map_route_of_inRange a ⟨0x8008, 0x800b, 0x0fc0, Handler.io 2⟩ (by omega) (by decide)
        (by simp only [address_map_entry.inRange, e1, decide_eq_true_eq]; omega), hk]
      simp only [address_map_entry.offset, address_map_entry.base, e1, Option.some.injEq,
        Prod.mk.injEq, Handler.io.injEq]
      norm_num
      omega
    · rw [mem_map_route_of_inRange a ⟨0x800c, 0x800f, 0x0fc0, Handler.io 3⟩ (by omega) (by decide)
        (by simp only [address_map_entry.inRange, e1, decide_eq_true_eq]; omega), hk]
      simp only [address_map_entry.offset, address_map_entry.base, e1, Option.some.injEq,
        Prod.mk.injEq, Handler.io.injEq]
      norm_num
      omega
    · rw [mem_map_route_of_inRange a ⟨0x8010, 0x8013, 0x0fc0, Handler.io 4⟩ (by omega) (by decide)
        (by simp only [address_map_entry.inRange, e1, decide_eq_true_eq]; omega), hk]
      simp only [address_map_entry.offset, address_map_entry.base, e1, Option.some.injEq,
        Prod.mk.injEq, Handler.io.injEq]
      norm_num
      omega
    · rw [mem_map_route_of_inRange a ⟨0x8014, 0x801b, 0x0fc0, Handler.io 5⟩ (by omega) (by decide)
        (by simp only [address_map_entry.inRange, e1, decide_eq_true_eq]; omega), hk]
      simp only [address_map_entry.offset, address_map_entry.base, e1, Option.some.injEq,
        Prod.mk.injEq, Handler.io.injEq]
      norm_num
      omega
    · rw [mem_map_route_of_inRange a ⟨0x8014, 0x801b, 0x0fc0, Handler.io 5⟩ (by omega) (by decide)
        (by simp only [address_map_entry.inRange, e1, decide_eq_true_eq]; omega), hk]
      simp only [address_map_entry.offset, address_map_entry.base, e1, Option.some.injEq,
        Prod.mk.injEq, Handler.io.injEq]
      norm_num
      omega
    · rw [mem_map_route_of_inRange a ⟨0x801c, 0x801f, 0x0fc0, Handler.io 7⟩ (by omega) (by decide)
        (by simp only [address_map_entry.inRange, e1, decide_eq_true_eq]; omega), hk]
      simp only [address_map_entry.offset, address_map_entry.base, e1, Option.some.injEq,
        Prod.mk.injEq, Handler.io.injEq]
      norm_num
      omega
  have h5' : a / 32 % 2 = 0 := by
    have := and_20 a
    omega
  refine ⟨?_, ?_, mem_map_no_io6⟩
  · rw [shr2_and_7, and_1f, and_3]
    exact key a h1 h2 h5'
  · rw [and_1f, key a h1 h2 h5', key (0x8000 + a % 32) (by omega) (by omega) (by omega)]
    have ha : (0x8000 + a % 32) / 4 % 8 = a / 4 % 8 := by omega
    have hb : (0x8000 + a % 32) % 32 = a % 32 := by omega
    have hc : (0x8000 + a % 32) % 4 = a % 4 := by omega
    rw [ha, hb, hc]

/-- Witness of C7 at `0x8FD6`: A6..A11 all set, slot field 5, the FDC in `io5`
at offset 2. -/
theorem mem_map_io_decoding_witness :
    (0x8000 ≤ 0x8FD6 ∧ 0x8FD6 ≤ 0x8FFF ∧ 0x8FD6 &&& 0x20 = 0) ∧
    swtpc_state.mem_map.route 0x8FD6 = some (Handler.io 5, 2) :=
  ⟨by decide, (mem_map_io_decoding 0x8FD6 (by decide) (by decide) (by decide)).1⟩

theorem swtpc_unmapped (a ram_size : Nat)
    (h : (0x9000 ≤ a ∧ a ≤ 0x9FFF) ∨ (0x8000 ≤ a ∧ a ≤ 0x8FFF ∧ a / 32 % 2 = 1))
    (hs : ram_size ∈ ram_options) :
    ∀ e ∈ (swtpc_state.machine_start ram_size).entries, e.matches a = false := by
  have hb := ram_options_bounds ram_size hs
  have ha : a < 65536 := by omega
  have e0 := effective_address_0000 a ha
  have e1 := effective_address_0fc0 a ha
  have e2 := effective_address_1c00 a ha
  simp only [swtpc_state.machine_start, swtpc_state.mem_map, AM_RANGE, List.mem_cons,
    List.mem_singleton, forall_eq_or_imp, forall_eq, address_map_entry.matches,
    address_map_entry.base, address_map_entry.size, e0, e1, e2, decide_eq_false_iff_not,
    List.not_mem_nil, false_implies, implies_true, and_true]
  refine ⟨?_, ?_, ?_, ?_, ?_, ?_, ?_, ?_, ?_, ?_, ?_⟩ <;> omega

/-- C8: in `mem_map` no entry matches an address in `0x9000..0x9FFF`, nor an
address in `0x8000..0x8FFF` with A5 set; a read of such an address returns the
configured unmapped value `0xFF` (`unmap_value_high`), before and after
`machine_start` has installed the RAM (for every allowed RAM size). -/
theorem mem_map_unmapped_reads_high (a ram_size : Nat) (backend : Handler → Nat → Nat)
    (h : (0x9000 ≤ a ∧ a ≤ 0x9FFF) ∨ (0x8000 ≤ a ∧ a ≤ 0x8FFF ∧ a &&& 0x20 = 0x20))
    (hs : ram_size ∈ ram_options) :
    (∀ e ∈ swtpc_state.mem_map.entries, e.matches a = false) ∧
    swtpc_state.mem_map.route a = none ∧
    swtpc_state.mem_map.read backend a = 0xFF ∧
    (swtpc_state.machine_start ram_size).read backend a = 0xFF := by
  have h' : (0x9000 ≤ a ∧ a ≤ 0x9FFF) ∨ (0x8000 ≤ a ∧ a ≤ 0x8FFF ∧ a / 32 % 2 = 1) := by
    have := and_20 a
    omega
  have hall := swtpc_unmapped a ram_size h' hs
  have hmem : ∀ e ∈ swtpc_state.mem_map.entries, e.matches a = false :=
    fun e he => hall e (List.mem_cons_of_mem _ he)
  have hr := route_none_of_not_matches _ a hmem
  exact ⟨hmem, hr, read_of_route_none _ backend a hr,
    read_of_route_none _ backend a (route_none_of_not_matches _ a hall)⟩

/-- Witness of C8 at `0x8020` (A5 set) with 32K of RAM and a backend that
would answer `0x55` everywhere. -/
theorem mem_map_unmapped_reads_high_witness :
    ((0x9000 ≤ 0x8020 ∧ 0x8020 ≤ 0x9FFF) ∨
      (0x8000 ≤ 0x8020 ∧ 0x8020 ≤ 0x8FFF ∧ 0x8020 &&& 0x20 = 0x20)) ∧
    32768 ∈ ram_options ∧
    swtpc_state.mem_map.read (fun _ _ => 0x55) 0x8020 = 0xFF ∧
    (swtpc_state.machine_start 32768).read (fun _ _ => 0x55) 0x8020 = 0xFF :=
  ⟨by decide, by decide,
    (mem_map_unmapped_reads_high 0x8020 32768 (fun _ _ => 0x55) (by decide) (by decide)).2.2⟩

/-- C9: in `mem_map` every address `a` in `0xE000..0xFFFF` reads the monitor
ROM region `mcm6830` at offset `a & 0x3FF`, which lies inside the 0x400-byte
region; the reset vector at `0xFFFE`/`0xFFFF` reads ROM offsets
`0x3FE`/`0x3FF`. -/
theorem mem_map_monitor_rom (a : Nat) (backend : Handler → Nat → Nat)
    (h1 : 0xE000 ≤ a) (h2 : a ≤ 0xFFFF) :
    swtpc_state.mem_map.route a = some (Handler.rom Region.mcm6830 0, a &&& 0x3FF) ∧
    (swtpc_state.mem_map.route a).bind region_offset = some (Region.mcm6830, a &&& 0x3FF) ∧
    a &&& 0x3FF < mcm6830_size ∧
    swtpc_state.mem_map.read backend a
      = UINT8 (backend (Handler.rom Region.mcm6830 0) (a &&& 0x3FF)) ∧
    swtpc_state.mem_map.route 0xFFFE = some (Handler.rom Region.mcm6830 0, 0x3FE) ∧
    swtpc_state.mem_map.route 0xFFFF = some (Handler.rom Region.mcm6830 0, 0x3FF) ∧
    0x3FE < mcm6830_size ∧ 0x3FF < mcm6830_size := by
  have e2 := effective_address_1c00 a (by omega)
  have hr : swtpc_state.mem_map.route a
      = some (Handler.rom Region.mcm6830 0, a &&& 0x3FF) := by
    rw [mem_map_route_of_inRange a ⟨0xe000, 0xe3ff, 0x1c00, Handler.rom Region.mcm6830 0⟩
      (by omega) (by decide)
      (by simp only [address_map_entry.inRange, e2, decide_eq_true_eq]; omega), and_3ff]
    simp only [address_map_entry.offset, address_map_entry.base, e2]
    exact some_pair_congr (by omega)
  refine ⟨hr, ?_, ?_, read_of_route_some _ backend a _ _ hr, by decide, by decide,
    by decide, by decide⟩
  · rw [hr]; simp [region_offset]
  · rw [and_3ff]; unfold mcm6830_size; omega

/-- Witness of C9 at the high byte of the reset vector, `0xFFFE`. -/
theorem mem_map_monitor_rom_witness :
    (0xE000 ≤ 0xFFFE ∧ 0xFFFE ≤ 0xFFFF) ∧
    swtpc_state.mem_map.read (fun _ off => off) 0xFFFE = UINT8 0x3FE :=
  ⟨by decide,
    (mem_map_monitor_rom 0xFFFE (fun _ off => off) (by decide) (by decide)).2.2.2.1⟩

/-! ## Bit arithmetic for the 74164 -/

theorem and_fe (x : Nat) : x &&& 0xfe = x % 256 / 2 * 2 := by
  rw [land_split x 0xfe 8]
  have h1 : 0xfe / 2 ^ 8 = 0 := by decide
  have h2 : 0xfe % 2 ^ 8 = 0xfe := by decide
  rw [h1, h2, Nat.and_zero, land_split (x % 2 ^ 8) 0xfe 1]
  have h3 : 0xfe / 2 ^ 1 = 127 := by decide
  have h4 : 0xfe % 2 ^ 1 = 0 := by decide
  rw [h3, h4, Nat.and_zero, land_ones _ 127 7 (by decide)]
  omega

theorem even_or_one (k : Nat) : (2 * k) ||| 1 = 2 * k + 1 := by
  have h : 2 ^ 1 * k + 1 = 2 ^ 1 * k ||| 1 := Nat.mul_add_lt_is_or (by decide) k
  simpa using h.symm

theorem BIT_eq (x n : Nat) : BIT x n = x / 2 ^ n % 2 := by
  unfold BIT
  rw [Nat.shiftRight_eq_div_pow, Nat.and_one_is_mod]

theorem shl1_and_fe (m : Nat) : UINT32 (m <<< 1) &&& 0xfe = 2 * (m % 128) := by
  rw [and_fe, Nat.shiftLeft_eq]
  unfold UINT32
  omega

theorem shl1_and_fe_nowrap (m : Nat) : (m <<< 1) &&& 0xfe = 2 * (m % 128) := by
  rw [and_fe, Nat.shiftLeft_eq]
  omega

namespace nld_74164

/-- The values driven on `QA .. QH` by one update, in output order. -/
theorem update_values (now : Nat) (d : nld_74164) (A B CLRQ CLK : Nat) :
    (update now d A B CLRQ CLK).2.map (fun n => n.value)
      = (List.range 8).map (fun i => BIT (update now d A B CLRQ CLK).1.m_cnt i) := by
  simp [update, push, BIT, List.map_map, Function.comp_def]

/-- The register value after a rising clock edge with clear inactive. -/
theorem next_cnt_shift (d : nld_74164) (A B CLRQ CLK : Nat)
    (hclr : CLRQ ≠ 0) (hclk : CLK ≠ 0) (hlast : d.m_last_CLK = 0) :
    next_cnt d A B CLRQ CLK = 2 * (d.m_cnt % 128) + (if A ≠ 0 ∧ B ≠ 0 then 1 else 0) := by
  unfold next_cnt
  rw [if_neg hclr, if_pos ⟨hclk, hlast⟩]
  simp only [shl1_and_fe]
  by_cases hab : A ≠ 0 ∧ B ≠ 0
  · rw [if_pos hab, if_pos hab, even_or_one]
  · rw [if_neg hab, if_neg hab, and_fe]
    omega

/-- C11: asynchronous clear of the 74164.  With `CLRQ` low (0), for every prior
register value, every prior `m_last_CLK` and every `CLK`, `A`, `B`, the update
leaves the shift register at 0 and drives all eight outputs `QA .. QH` to 0. -/
theorem update_clear (now : Nat) (d : nld_74164) (A B CLK : Nat) :
    (update now d A B 0 CLK).1.m_cnt = 0 ∧
    (update now d A B 0 CLK).2.map (fun n => (n.output, n.value))
      = [(0, 0), (1, 0), (2, 0), (3, 0), (4, 0), (5, 0), (6, 0), (7, 0)] := by
  constructor
  · simp [update, next_cnt]
  · simp [update, next_cnt, push, List.range, List.range.loop]

/-- C12: shift of the 74164 on a rising clock edge.  With `CLRQ` high, `CLK`
high and `m_last_CLK` 0 the new register value is
`((old << 1) & 0xFE) | (A AND B)`: `QA` becomes 1 iff both `A` and `B` are
high, each `Q[i+1]` (`i = 0 .. 6`) takes the old bit `i`, and the old bit 7
(`QH`) is discarded (the new value is `2 * (old mod 128) + (A AND B)`); the
eight outputs are driven with the bits of the new value. -/
theorem update_shift (now : Nat) (d : nld_74164) (A B CLRQ CLK : Nat)
    (hclr : CLRQ ≠ 0) (hclk : CLK ≠ 0) (hlast : d.m_last_CLK = 0) :
    (update now d A B CLRQ CLK).1.m_cnt
      = ((d.m_cnt <<< 1) &&& 0xFE) ||| (if A ≠ 0 ∧ B ≠ 0 then 1 else 0) ∧
    (update now d A B CLRQ CLK).1.m_cnt
      = 2 * (d.m_cnt % 128) + (if A ≠ 0 ∧ B ≠ 0 then 1 else 0) ∧
    (BIT (update now d A B CLRQ CLK).1.m_cnt 0 = 1 ↔ (A ≠ 0 ∧ B ≠ 0)) ∧
    (∀ i, i < 7 → BIT (update now d A B CLRQ CLK).1.m_cnt (i + 1) = BIT d.m_cnt i) ∧
    (update now d A B CLRQ CLK).2.map (fun n => n.value)
      = (List.range 8).map (fun i => BIT (update now d A B CLRQ CLK).1.m_cnt i) := by
  have hcnt : (update now d A B CLRQ CLK).1.m_cnt
      = 2 * (d.m_cnt % 128) + (if A ≠ 0 ∧ B ≠ 0 then 1 else 0) :=
    next_cnt_shift d A B CLRQ CLK hclr hclk hlast
  refine ⟨?_, hcnt, ?_, ?_, update_values now d A B CLRQ CLK⟩
  · rw [hcnt, shl1_and_fe_nowrap]
    by_cases hab : A ≠ 0 ∧ B ≠ 0
    · rw [if_pos hab, even_or_one]
    · rw [if_neg hab, Nat.or_zero, Nat.add_zero]
  · rw [hcnt, BIT_eq]
    by_cases hab : A ≠ 0 ∧ B ≠ 0
    · rw [if_pos hab]
      simp only [hab, ne_eq, not_false_eq_true, and_self, iff_true]
      omega
    · rw [if_neg hab]
      simp only [hab, iff_false]
      omega
  · intro i hi
    rw [hcnt, BIT_eq, BIT_eq]
    have hb : (if A ≠ 0 ∧ B ≠ 0 then 1 else 0) < 2 := by split <;> omega
    generalize (if A ≠ 0 ∧ B ≠ 0 then 1 else 0) = ab at hb
    have hcase : i = 0 ∨ i = 1 ∨ i = 2 ∨ i = 3 ∨ i = 4 ∨ i = 5 ∨ i = 6 := by omega
    rcases hcase with h | h | h | h | h | h | h <;> subst h <;> norm_num <;> omega

/-- Witness of C12: the register `0xA5` clocked with `A = B = 1` becomes `0x4B`. -/
theorem update_shift_witness :
    ((1 : Nat) ≠ 0 ∧ (1 : Nat) ≠ 0 ∧ (⟨0xA5, 0⟩ : nld_74164).m_last_CLK = 0) ∧
    (update 100 ⟨0xA5, 0⟩ 1 1 1 1).1.m_cnt = 0x4B ∧
    (update 100 ⟨0xA5, 0⟩ 1 1 1 1).2.map (fun n => n.value) = [1, 1, 0, 1, 0, 0, 1, 0] :=
  have h := update_shift 100 ⟨0xA5, 0⟩ 1 1 1 1 (by decide) (by decide) rfl
  ⟨by decide, h.2.1, h.2.2.2.2⟩

/-- C13: hold of the 74164.  With `CLRQ` high and no rising clock edge (`CLK`
low, or `m_last_CLK` already non-zero) the register value is unchanged for
every `A` and `B`, the eight outputs are driven with the unchanged register
bits, and only `m_last_CLK` changes, to the sampled `CLK`. -/
theorem update_hold (now : Nat) (d : nld_74164) (A B CLRQ CLK : Nat)
    (hclr : CLRQ ≠ 0) (hedge : CLK = 0 ∨ d.m_last_CLK ≠ 0) :
    (update now d A B CLRQ CLK).1 = ⟨d.m_cnt, CLK⟩ ∧
    (update now d A B CLRQ CLK).2.map (fun n => n.value)
      = (List.range 8).map (fun i => BIT d.m_cnt i) := by
  have hno : ¬ (CLK ≠ 0 ∧ d.m_last_CLK = 0) := by
    rintro ⟨h1, h2⟩
    rcases hedge with h | h
    · exact h1 h
    · exact h h2
  have hcnt : next_cnt d A B CLRQ CLK = d.m_cnt := by
    unfold next_cnt
    rw [if_neg hclr, if_neg hno]
  have hst : (update now d A B CLRQ CLK).1 = ⟨d.m_cnt, CLK⟩ := by
    simp only [update, hcnt]
  refine ⟨hst, ?_⟩
  rw [update_values, hst]

/-- Witness of C13: clock held high (`m_last_CLK = 1`), and clock low. -/
theorem update_hold_witness :
    ((update 100 ⟨0xA5, 1⟩ 1 1 1 1).1 = ⟨0xA5, 1⟩ ∧
      (update 100 ⟨0xA5, 1⟩ 1 1 1 1).2.map (fun n => n.value) = [1, 0, 1, 0, 0, 1, 0, 1]) ∧
    ((update 100 ⟨0xA5, 0⟩ 0 1 1 0).1 = ⟨0xA5, 0⟩ ∧
      (update 100 ⟨0xA5, 0⟩ 0 1 1 0).2.map (fun n => n.value) = [1, 0, 1, 0, 0, 1, 0, 1]) :=
  ⟨update_hold 100 ⟨0xA5, 1⟩ 1 1 1 1 (by decide) (Or.inr (by decide)),
   update_hold 100 ⟨0xA5, 0⟩ 0 1 1 0 (by decide) (Or.inl rfl)⟩

/-- C14: every update of the 74164 at time `now`, on every path (clear, shift,
hold), drives each of the eight outputs `Q[i]` (`i = 0 .. 7`) with bit `i` of
the register and the delay `NLTIME_FROM_NS(30)`: the eight notifications are
due at exactly `now + 30` ns. -/
theorem update_outputs_delay (now : Nat) (d : nld_74164) (A B CLRQ CLK : Nat) :
    (update now d A B CLRQ CLK).2
      = (List.range 8).map
          (fun i => ⟨i, BIT (update now d A B CLRQ CLK).1.m_cnt i, now + 30⟩) ∧
    (update now d A B CLRQ CLK).2.length = 8 ∧
    (∀ n ∈ (update now d A B CLRQ CLK).2, n.fire_time = now + 30) := by
  refine ⟨rfl, by simp [update], ?_⟩
  intro n hn
  simp only [update, List.mem_map] at hn
  obtain ⟨i, _, rfl⟩ := hn
  rfl

end nld_74164

/-! ## Bit arithmetic for the keyboards -/

theorem not32_mod_256 (x : Nat) : NOT32 x % 256 = 255 - x % 256 := by
  have hlt : x % 2 ^ 8 < 2 ^ 8 := Nat.mod_lt _ (by decide)
  have e1 : (256 : Nat) = 2 ^ 8 := by decide
  have e2 : 255 - x % 2 ^ 8 = 2 ^ 8 - (x % 2 ^ 8 + 1) := by omega
  have e3 : (0xFFFFFFFF : Nat) = 2 ^ 32 - 1 := by decide
  rw [e1, e2]
  apply Nat.eq_of_testBit_eq
  intro i
  rw [Nat.testBit_two_pow_sub_succ hlt, NOT32, e3]
  simp only [Nat.testBit_mod_two_pow, Nat.testBit_xor, Nat.testBit_two_pow_sub_one]
  by_cases h : i < 8
  · have h32 : i < 32 := by omega
    simp [h, h32]
  · simp [h]

theorem not32_and_ff (x : Nat) : NOT32 x &&& 0xff = 255 - x % 256 := by
  rw [land_ones _ 0xff 8 (by decide)]
  exact not32_mod_256 x

theorem uint8_not32_not32 (x : Nat) : UINT8 (NOT32 (UINT8 (NOT32 x &&& 0xff))) = x % 256 := by
  unfold UINT8
  rw [not32_and_ff, not32_mod_256]
  omega

theorem and_0f_lt (t : Nat) : t &&& 0x0f < 16 :=
  Nat.and_lt_two_pow t (show 0x0f < 2 ^ 4 by decide)

theorem not32_uint8_and (l c : Nat) (hc : c < 16) : NOT32 (UINT8 l) &&& c = NOT32 l &&& c := by
  apply Nat.eq_of_testBit_eq
  intro i
  have e3 : (0xFFFFFFFF : Nat) = 2 ^ 32 - 1 := by decide
  have e1 : (256 : Nat) = 2 ^ 8 := by decide
  simp only [NOT32, UINT8, e3, e1, Nat.testBit_and, Nat.testBit_xor, Nat.testBit_mod_two_pow,
    Nat.testBit_two_pow_sub_one]
  by_cases h : i < 4
  · have h8 : i < 8 := by omega
    simp [h8]
  · have hci : c.testBit i = false :=
      Nat.testBit_lt_two_pow
        (Nat.lt_of_lt_of_le hc (by
          have : 2 ^ 4 ≤ 2 ^ i := Nat.pow_le_pow_right (by decide) (by omega)
          simpa using this))
    simp [hci]

/-! ## mp68a keypad -/

namespace mp68a_state

/-- C15: keypad encoding of the mp68a.  For each of the 16 hex keys `k`, when
exactly that key is pressed as laid out in `INPUT_PORTS_START( mp68a )` and the
lines have been sampled by `pia2_cb1_r`, `pia2_kbB_r` returns a byte whose low
four bits equal `k`, whatever the prior driver state (shift included). -/
theorem pia2_kbB_r_key (st : didact_state) (k : Nat) (hk : k < 16) :
    (pia2_kbB_r (pia2_cb1_r st (io_line k 0) (io_line k 1) (io_line k 2)
      (io_line k 3)).2).1 &&& 0x0F = k := by
  have hcase : k = 0 ∨ k = 1 ∨ k = 2 ∨ k = 3 ∨ k = 4 ∨ k = 5 ∨ k = 6 ∨ k = 7 ∨ k = 8 ∨
      k = 9 ∨ k = 10 ∨ k = 11 ∨ k = 12 ∨ k = 13 ∨ k = 14 ∨ k = 15 := by omega
  by_cases hs : st.m_shift = 0
  · rcases hcase with h | h | h | h | h | h | h | h | h | h | h | h | h | h | h | h <;>
      subst h <;>
      simp [pia2_kbB_r, pia2_cb1_r, io_line, key_bit, UINT8, scan, hs] <;>
      decide
  · rcases hcase with h | h | h | h | h | h | h | h | h | h | h | h | h | h | h | h <;>
      subst h <;>
      simp [pia2_kbB_r, pia2_cb1_r, io_line, key_bit, UINT8, scan, hs] <;>
      decide

/-- Witness of C15: key `B` (`LINE1` bit 3) pressed with shift set reads `0x8B`. -/
theorem pia2_kbB_r_key_witness :
    (11 < 16) ∧
    (pia2_kbB_r (pia2_cb1_r { didact_state.init with m_shift := 1 } 0 0x08 0 0).2).1 = 0x8B ∧
    (pia2_kbB_r (pia2_cb1_r { didact_state.init with m_shift := 1 } (io_line 11 0)
      (io_line 11 1) (io_line 11 2) (io_line 11 3)).2).1 &&& 0x0F = 11 :=
  ⟨by decide, by decide,
   pia2_kbB_r_key { didact_state.init with m_shift := 1 } 11 (by decide)⟩

/-- C16: key-pressed line of the mp68a.  `pia2_cb1_r` stores the four port
values (8-bit ports) in `m_line0 .. m_line3` and returns 0 if and only if some
bit of `LINE0 | LINE1 | LINE2 | LINE3` is set, otherwise 1.  Pressing key `0`
alone (`LINE3 = 0x01`) gives CB1 = 0 although `pia2_kbB_r` then returns the
same low nibble 0 as with no key pressed, where CB1 = 1. -/
theorem pia2_cb1_r_key_pressed (st : didact_state) (l0 l1 l2 l3 : Nat)
    (h0 : l0 < 256) (h1 : l1 < 256) (h2 : l2 < 256) (h3 : l3 < 256) :
    (pia2_cb1_r st l0 l1 l2 l3).2
      = { st with m_line0 := l0, m_line1 := l1, m_line2 := l2, m_line3 := l3 } ∧
    ((pia2_cb1_r st l0 l1 l2 l3).1 = 0 ↔ (l0 ||| l1 ||| l2 ||| l3) ≠ 0) ∧
    ((pia2_cb1_r st l0 l1 l2 l3).1 = 1 ↔ (l0 ||| l1 ||| l2 ||| l3) = 0) ∧
    (pia2_cb1_r st (io_line 0 0) (io_line 0 1) (io_line 0 2) (io_line 0 3)).1 = 0 ∧
    (pia2_kbB_r (pia2_cb1_r st (io_line 0 0) (io_line 0 1) (io_line 0 2)
      (io_line 0 3)).2).1 &&& 0x0F = 0 ∧
    (pia2_cb1_r st 0 0 0 0).1 = 1 ∧
    (pia2_kbB_r (pia2_cb1_r st 0 0 0 0).2).1 &&& 0x0F = 0 := by
  have u0 : UINT8 l0 = l0 := Nat.mod_eq_of_lt h0
  have u1 : UINT8 l1 = l1 := Nat.mod_eq_of_lt h1
  have u2 : UINT8 l2 = l2 := Nat.mod_eq_of_lt h2
  have u3 : UINT8 l3 = l3 := Nat.mod_eq_of_lt h3
  refine ⟨?_, ?_, ?_, ?_, ?_, ?_, ?_⟩
  · simp only [pia2_cb1_r, u0, u1, u2, u3]
  · simp only [pia2_cb1_r, u0, u1, u2, u3]
    by_cases h : (l0 ||| l1 ||| l2 ||| l3) = 0 <;> simp [h]
  · simp only [pia2_cb1_r, u0, u1, u2, u3]
    by_cases h : (l0 ||| l1 ||| l2 ||| l3) = 0 <;> simp [h]
  · simp [pia2_cb1_r, io_line, key_bit, UINT8]
  · by_cases hs : st.m_shift = 0
    · simp [pia2_kbB_r, pia2_cb1_r, io_line, key_bit, UINT8, scan, hs]
    · simp [pia2_kbB_r, pia2_cb1_r, io_line, key_bit, UINT8, scan, hs]
      decide
  · simp [pia2_cb1_r, UINT8]
  · by_cases hs : st.m_shift = 0
    · simp [pia2_kbB_r, pia2_cb1_r, UINT8, scan, hs]
    · simp [pia2_kbB_r, pia2_cb1_r, UINT8, scan, hs]
      decide

/-- Witness of C16: keys `C` and `8` down together. -/
theorem pia2_cb1_r_key_pressed_witness :
    (0x10 < 256 ∧ 0x01 < 256 ∧ 0 < 256) ∧
    ((pia2_cb1_r didact_state.init 0x10 0x01 0 0).1 = 0 ↔ (0x10 ||| 0x01 ||| 0 ||| 0) ≠ 0) :=
  ⟨by decide,
   (pia2_cb1_r_key_pressed didact_state.init 0x10 0x01 0 0 (by decide) (by decide) (by decide)
     (by decide)).2.1⟩

end mp68a_state

/-! ## md6802 keypad and display -/

namespace md6802_state

/-- The byte returned by `pia2_kbA_r`, as a sum: `0xFF` less the bit of each row
with a pressed key in a selected column, less `0x80` when shift is set. -/
theorem pia2_kbA_r_value (st : md6802_state) (t l0 l1 l2 l3 : Nat) :
    (pia2_kbA_r st t l0 l1 l2 l3).1
      = 0xFF - (if NOT32 l0 &&& (t &&& 0x0F) ≠ 0 then 1 else 0)
             - (if NOT32 l1 &&& (t &&& 0x0F) ≠ 0 then 2 else 0)
             - (if NOT32 l2 &&& (t &&& 0x0F) ≠ 0 then 4 else 0)
             - (if NOT32 l3 &&& (t &&& 0x0F) ≠ 0 then 8 else 0)
             - (if st.m_shift ≠ 0 then 0x80 else 0) := by
  have hc : UINT8 (t &&& 0x0f) = t &&& 0x0f := Nat.mod_eq_of_lt (by
    have := and_0f_lt t
    omega)
  simp only [pia2_kbA_r, hc, not32_uint8_and _ _ (and_0f_lt t)]
  by_cases c0 : NOT32 l0 &&& (t &&& 0x0F) = 0 <;>
  by_cases c1 : NOT32 l1 &&& (t &&& 0x0F) = 0 <;>
  by_cases c2 : NOT32 l2 &&& (t &&& 0x0F) = 0 <;>
  by_cases c3 : NOT32 l3 &&& (t &&& 0x0F) = 0 <;>
  by_cases cs : st.m_shift = 0 <;>
  simp only [c0, c1, c2, c3, cs, ne_eq, not_true_eq_false, not_false_eq_true, if_true,
    if_false] <;>
  decide

end md6802_state

namespace md6802_state

theorem BIT_lt_two (x n : Nat) : BIT x n < 2 := by
  rw [BIT_eq]
  exact Nat.mod_lt _ (by decide)

/-- A row reads as pressed exactly when some selected column `j < 4` has a 0 in
the row's port value (keys are active low). -/
theorem row_pressed_iff (l t : Nat) :
    NOT32 l &&& (t &&& 0x0F) ≠ 0 ↔
      ∃ j, j < 4 ∧ (t &&& 0x0F).testBit j = true ∧ l.testBit j = false := by
  have e3 : (0xFFFFFFFF : Nat) = 2 ^ 32 - 1 := by decide
  constructor
  · intro h
    obtain ⟨i, hi⟩ := Nat.ne_zero_implies_bit_true h
    rw [Nat.testBit_and, Bool.and_eq_true] at hi
    have hi4 : i < 4 := by
      by_contra hge
      have hlt : t &&& 0x0F < 2 ^ i :=
        Nat.lt_of_lt_of_le (and_0f_lt t) (by
          have : 2 ^ 4 ≤ 2 ^ i := Nat.pow_le_pow_right (by decide) (by omega)
          simpa using this)
      rw [Nat.testBit_lt_two_pow hlt] at hi
      exact Bool.noConfusion hi.2
    refine ⟨i, hi4, hi.2, ?_⟩
    have h1 := hi.1
    have h32 : i < 32 := by omega
    rw [NOT32, e3, Nat.testBit_xor, Nat.testBit_two_pow_sub_one] at h1
    simpa [h32] using h1
  · rintro ⟨j, hj, hc, hl⟩ h0
    have hb : (NOT32 l &&& (t &&& 0x0F)).testBit j = true := by
      have h32 : j < 32 := by omega
      rw [Nat.testBit_and, NOT32, e3, Nat.testBit_xor, Nat.testBit_two_pow_sub_one, hc, hl]
      simp [h32]
    rw [h0, Nat.zero_testBit] at hb
    exact Bool.noConfusion hb

theorem idle_row_not_pressed (t : Nat) : NOT32 io_line_idle &&& (t &&& 0x0F) = 0 := by
  rw [Nat.and_comm t, ← Nat.and_assoc]
  have h : NOT32 io_line_idle &&& 0x0F = 0 := by decide
  rw [h, Nat.zero_and]

/-- C17: keyboard read of the md6802.  With `c` the low four bits of the 74145
output, for every `c`, port values and shift state, `pia2_kbA_r` returns a byte
in which bit `i` (`i = 0 .. 3`) is 0 if and only if `(~LINEi & c) != 0`, that is
if and only if some selected column has an active-low key of row `i` pressed;
bit 7 is 0 if and only if `m_shift` is non-zero; bits 4..6 are always 1.  With
no key pressed (every port at its idle value) and shift released the result is
`0xFF`. -/
theorem pia2_kbA_r_bits (st : md6802_state) (t l0 l1 l2 l3 : Nat) :
    (BIT (pia2_kbA_r st t l0 l1 l2 l3).1 0 = 0 ↔ NOT32 l0 &&& (t &&& 0x0F) ≠ 0) ∧
    (BIT (pia2_kbA_r st t l0 l1 l2 l3).1 1 = 0 ↔ NOT32 l1 &&& (t &&& 0x0F) ≠ 0) ∧
    (BIT (pia2_kbA_r st t l0 l1 l2 l3).1 2 = 0 ↔ NOT32 l2 &&& (t &&& 0x0F) ≠ 0) ∧
    (BIT (pia2_kbA_r st t l0 l1 l2 l3).1 3 = 0 ↔ NOT32 l3 &&& (t &&& 0x0F) ≠ 0) ∧
    (BIT (pia2_kbA_r st t l0 l1 l2 l3).1 7 = 0 ↔ st.m_shift ≠ 0) ∧
    BIT (pia2_kbA_r st t l0 l1 l2 l3).1 4 = 1 ∧
    BIT (pia2_kbA_r st t l0 l1 l2 l3).1 5 = 1 ∧
    BIT (pia2_kbA_r st t l0 l1 l2 l3).1 6 = 1 ∧
    (pia2_kbA_r st t l0 l1 l2 l3).1 < 256 ∧
    (∀ l, NOT32 l &&& (t &&& 0x0F) ≠ 0 ↔
      ∃ j, j < 4 ∧ (t &&& 0x0F).testBit j = true ∧ l.testBit j = false) ∧
    (st.m_shift = 0 →
      (pia2_kbA_r st t io_line_idle io_line_idle io_line_idle io_line_idle).1 = 0xFF) := by
  refine ⟨?_, ?_, ?_, ?_, ?_, ?_, ?_, ?_, ?_, fun l => row_pressed_iff l t, ?_⟩
  case refine_10 =>
    intro hs
    rw [pia2_kbA_r_value, idle_row_not_pressed]
    simp [hs]
  all_goals
    rw [pia2_kbA_r_value]
    by_cases c0 : NOT32 l0 &&& (t &&& 0x0F) = 0 <;>
    by_cases c1 : NOT32 l1 &&& (t &&& 0x0F) = 0 <;>
    by_cases c2 : NOT32 l2 &&& (t &&& 0x0F) = 0 <;>
    by_cases c3 : NOT32 l3 &&& (t &&& 0x0F) = 0 <;>
    by_cases cs : st.m_shift = 0 <;>
    simp only [c0, c1, c2, c3, cs, ne_eq, not_true_eq_false, not_false_eq_true, if_true,
      if_false] <;>
    decide

end md6802_state

namespace md6802_state

theorem bitswap_bits :
    ∀ b0, b0 < 2 → ∀ b1, b1 < 2 → ∀ b2, b2 < 2 → ∀ b3, b3 < 2 → ∀ b4, b4 < 2 →
    ∀ b5, b5 < 2 → ∀ b6, b6 < 2 → ∀ b7, b7 < 2 →
      BIT (UINT8 ((b0 <<< 7) ||| (b4 <<< 6) ||| (b5 <<< 5) ||| (b3 <<< 4) |||
                  (b2 <<< 3) ||| (b1 <<< 2) ||| (b7 <<< 1) ||| (b6 <<< 0))) 7 = b0 ∧
      BIT (UINT8 ((b0 <<< 7) ||| (b4 <<< 6) ||| (b5 <<< 5) ||| (b3 <<< 4) |||
                  (b2 <<< 3) ||| (b1 <<< 2) ||| (b7 <<< 1) ||| (b6 <<< 0))) 6 = b4 ∧
      BIT (UINT8 ((b0 <<< 7) ||| (b4 <<< 6) ||| (b5 <<< 5) ||| (b3 <<< 4) |||
                  (b2 <<< 3) ||| (b1 <<< 2) ||| (b7 <<< 1) ||| (b6 <<< 0))) 5 = b5 ∧
      BIT (UINT8 ((b0 <<< 7) ||| (b4 <<< 6) ||| (b5 <<< 5) ||| (b3 <<< 4) |||
                  (b2 <<< 3) ||| (b1 <<< 2) ||| (b7 <<< 1) ||| (b6 <<< 0))) 4 = b3 ∧
      BIT (UINT8 ((b0 <<< 7) ||| (b4 <<< 6) ||| (b5 <<< 5) ||| (b3 <<< 4) |||
                  (b2 <<< 3) ||| (b1 <<< 2) ||| (b7 <<< 1) ||| (b6 <<< 0))) 3 = b2 ∧
      BIT (UINT8 ((b0 <<< 7) ||| (b4 <<< 6) ||| (b5 <<< 5) ||| (b3 <<< 4) |||
                  (b2 <<< 3) ||| (b1 <<< 2) ||| (b7 <<< 1) ||| (b6 <<< 0))) 2 = b1 ∧
      BIT (UINT8 ((b0 <<< 7) ||| (b4 <<< 6) ||| (b5 <<< 5) ||| (b3 <<< 4) |||
                  (b2 <<< 3) ||| (b1 <<< 2) ||| (b7 <<< 1) ||| (b6 <<< 0))) 1 = b7 ∧
      BIT (UINT8 ((b0 <<< 7) ||| (b4 <<< 6) ||| (b5 <<< 5) ||| (b3 <<< 4) |||
                  (b2 <<< 3) ||| (b1 <<< 2) ||| (b7 <<< 1) ||| (b6 <<< 0))) 0 = b6 := by
  intro b0 h0 b1 h1 b2 h2 b3 h3 b4 h4 b5 h5 b6 h6 b7 h7
  have c0 : b0 = 0 ∨ b0 = 1 := by omega
  have c1 : b1 = 0 ∨ b1 = 1 := by omega
  have c2 : b2 = 0 ∨ b2 = 1 := by omega
  have c3 : b3 = 0 ∨ b3 = 1 := by omega
  have c4 : b4 = 0 ∨ b4 = 1 := by omega
  have c5 : b5 = 0 ∨ b5 = 1 := by omega
  have c6 : b6 = 0 ∨ b6 = 1 := by omega
  have c7 : b7 = 0 ∨ b7 = 1 := by omega
  rcases c0 with h | h <;> rcases c1 with h' | h' <;> subst h <;> subst h' <;>
  rcases c2 with h | h <;> rcases c3 with h' | h' <;> subst h <;> subst h' <;>
  rcases c4 with h | h <;> rcases c5 with h' | h' <;> subst h <;> subst h' <;>
  rcases c6 with h | h <;> rcases c7 with h' | h' <;> subst h <;> subst h' <;>
  decide

theorem digit_nbr_eq (a : Nat) : UINT8 ((a >>> 4) &&& 0x07) = (a >>> 4) &&& 0x07 :=
  Nat.mod_eq_of_lt (Nat.lt_of_lt_of_le
    (Nat.and_lt_two_pow _ (show 0x07 < 2 ^ 3 by decide)) (by decide))

/-- C18: display path of the md6802.  `pia2_kbB_w(d)` changes only the stored
segment pattern, to `BITSWAP8(d,0,4,5,3,2,1,7,6)` (bits 7..0 of the pattern are
bits 0,4,5,3,2,1,7,6 of `d`), and lights no digit.  A following `pia2_kbA_w(a)`
with `n = (a >> 4) & 7` writes `n` to the 74145 and sets digit `n`, and no other
digit, to the stored pattern if `n < 6`; for `n = 6` or `7` no digit output
changes. -/
theorem display_path (st : md6802_state) (d a : Nat) :
    pia2_kbB_w st d = { st with m_segments := UINT8 (BITSWAP8 d 0 4 5 3 2 1 7 6) } ∧
    (pia2_kbB_w st d).digit_value = st.digit_value ∧
    (BIT (pia2_kbB_w st d).m_segments 7 = BIT d 0 ∧
     BIT (pia2_kbB_w st d).m_segments 6 = BIT d 4 ∧
     BIT (pia2_kbB_w st d).m_segments 5 = BIT d 5 ∧
     BIT (pia2_kbB_w st d).m_segments 4 = BIT d 3 ∧
     BIT (pia2_kbB_w st d).m_segments 3 = BIT d 2 ∧
     BIT (pia2_kbB_w st d).m_segments 2 = BIT d 1 ∧
     BIT (pia2_kbB_w st d).m_segments 1 = BIT d 7 ∧
     BIT (pia2_kbB_w st d).m_segments 0 = BIT d 6) ∧
    (pia2_kbA_w (pia2_kbB_w st d) a).m_tb16_74145 = (a >>> 4) &&& 7 ∧
    (pia2_kbA_w (pia2_kbB_w st d) a).m_segments = (pia2_kbB_w st d).m_segments ∧
    (∀ j, (pia2_kbA_w (pia2_kbB_w st d) a).digit_value j
        = if j = (a >>> 4) &&& 7 ∧ (a >>> 4) &&& 7 < 6
          then (pia2_kbB_w st d).m_segments else st.digit_value j) ∧
    (((a >>> 4) &&& 7 = 6 ∨ (a >>> 4) &&& 7 = 7) →
      (pia2_kbA_w (pia2_kbB_w st d) a).digit_value = st.digit_value) := by
  have hn := digit_nbr_eq a
  refine ⟨rfl, rfl, ?_, ?_, ?_, ?_, ?_⟩
  · exact bitswap_bits (BIT d 0) (BIT_lt_two d 0) (BIT d 1) (BIT_lt_two d 1)
      (BIT d 2) (BIT_lt_two d 2) (BIT d 3) (BIT_lt_two d 3) (BIT d 4) (BIT_lt_two d 4)
      (BIT d 5) (BIT_lt_two d 5) (BIT d 6) (BIT_lt_two d 6) (BIT d 7) (BIT_lt_two d 7)
  · simp only [pia2_kbA_w, hn]
    split <;> rfl
  · simp only [pia2_kbA_w, hn]
    split <;> rfl
  · intro j
    simp only [pia2_kbA_w, hn]
    by_cases h6 : (a >>> 4) &&& 7 < 6
    · by_cases hj : j = (a >>> 4) &&& 7
      · simp [h6, hj, set_digit_value, pia2_kbB_w]
      · simp [h6, hj, set_digit_value, pia2_kbB_w]
    · simp [h6, pia2_kbB_w]
  · intro h
    have h6 : ¬ (a >>> 4) &&& 7 < 6 := by omega
    simp [pia2_kbA_w, hn, h6, pia2_kbB_w]

end md6802_state

/-! ## Esselte 100 keyboard -/

/-- C19: keyboard read of the Esselte 100.  With `c` the low ten bits of the
74145 output: if `c` is one-hot with bit `i` set (`i = 0 .. 9`), `pia1_kbA_r`
returns the low 8 bits of port `LINE<i>` unchanged; if `c` is 0 or not one-hot
it returns `0xFF`. -/
theorem e100_state.pia1_kbA_r_column (kbd_74145_read : Nat) (io_line : Nat → Nat) :
    (∀ i, i < 10 → kbd_74145_read &&& 0x3ff = 1 <<< i →
      e100_state.pia1_kbA_r kbd_74145_read io_line = io_line i &&& 0xFF) ∧
    ((∀ i, i < 10 → kbd_74145_read &&& 0x3ff ≠ 1 <<< i) →
      e100_state.pia1_kbA_r kbd_74145_read io_line = 0xFF) := by
  constructor
  · intro i hi hc
    have hcase : i = 0 ∨ i = 1 ∨ i = 2 ∨ i = 3 ∨ i = 4 ∨ i = 5 ∨ i = 6 ∨ i = 7 ∨ i = 8 ∨
        i = 9 := by omega
    rw [land_ones _ 0xFF 8 (by decide)]
    rcases hcase with h | h | h | h | h | h | h | h | h | h <;> subst h <;>
      simp only [e100_state.pia1_kbA_r, hc] <;>
      exact uint8_not32_not32 _
  · intro hne
    have h0 := hne 0 (by decide)
    have h1 := hne 1 (by decide)
    have h2 := hne 2 (by decide)
    have h3 := hne 3 (by decide)
    have h4 := hne 4 (by decide)
    have h5 := hne 5 (by decide)
    have h6 := hne 6 (by decide)
    have h7 := hne 7 (by decide)
    have h8 := hne 8 (by decide)
    have h9 := hne 9 (by decide)
    unfold e100_state.pia1_kbA_r
    simp only
    split
    · decide
    all_goals first
      | (exfalso; simp_all; done)
      | decide

/-! ## The periodic artwork timer -/

namespace EventQueue

variable {σ : Type}

theorem earliest_none : ∀ (l : List ScheduledEvent), earliest l = none → l = []
  | [], _ => rfl
  | x :: xs, h => by
    unfold earliest at h
    cases hx : earliest xs with
    | none => rw [hx] at h; cases h
    | some m =>
      rw [hx] at h
      simp only at h
      split at h <;> cases h

theorem earliest_mem : ∀ (l : List ScheduledEvent) (e : ScheduledEvent),
    earliest l = some e → e ∈ l
  | [], e, h => by cases h
  | x :: xs, e, h => by
    unfold earliest at h
    cases hx : earliest xs with
    | none =>
      rw [hx] at h
      simp only [Option.some.injEq] at h
      rw [← h]; exact List.mem_cons_self x xs
    | some m =>
      rw [hx] at h
      simp only at h
      split at h
      · simp only [Option.some.injEq] at h
        rw [← h]; exact List.mem_cons_self x xs
      · simp only [Option.some.injEq] at h
        rw [← h]; exact List.mem_cons_of_mem x (earliest_mem xs m hx)

theorem earliest_le : ∀ (l : List ScheduledEvent) (e : ScheduledEvent),
    earliest l = some e → ∀ y ∈ l, e.fire_time ≤ y.fire_time
  | [], e, h => by cases h
  | x :: xs, e, h => by
    intro y hy
    unfold earliest at h
    cases hx : earliest xs with
    | none =>
      rw [hx] at h
      simp only [Option.some.injEq] at h
      have hnil := earliest_none xs hx
      rw [hnil] at hy
      rw [← h, List.mem_singleton.1 hy]
    | some m =>
      rw [hx] at h
      simp only at h
      have ih := earliest_le xs m hx
      rcases List.mem_cons.1 hy with hyx | hyxs
      · split at h
        · simp only [Option.some.injEq] at h
          rw [← h, hyx]
        · simp only [Option.some.injEq] at h
          rw [← h, hyx]; omega
      · have := ih y hyxs
        split at h
        · simp only [Option.some.injEq] at h
          rw [← h]; omega
        · simp only [Option.some.injEq] at h
          rw [← h]; exact this

theorem run_add (cb : Nat → Nat → σ → σ) : ∀ (a b : Nat) (q : EventQueue σ),
    run cb (a + b) q = run cb b (run cb a q)
  | 0, b, q => by rw [Nat.zero_add]; rfl
  | a + 1, b, q => by
    have h : a + 1 + b = (a + b) + 1 := by omega
    rw [h]
    show run cb (a + b) (advance_to_next cb q) = run cb b (run cb a (advance_to_next cb q))
    exact run_add cb a b _

theorem expected_firings_succ (t0 P k : Nat) :
    expected_firings t0 P (k + 1) = expected_firings t0 P k ++ [t0 + (k + 1) * P] := by
  simp [expected_firings, List.range_succ]

theorem timer_event_succ (t0 P T k : Nat) :
    ({ timer_event t0 P T k with fire_time := (timer_event t0 P T k).fire_time
        + (timer_event t0 P T k).period } : ScheduledEvent) = timer_event t0 P T (k + 1) := by
  simp only [timer_event, ScheduledEvent.mk.injEq, and_true]
  rw [Nat.add_mul (k + 1) 1 P, Nat.one_mul, Nat.add_assoc]

/-- One step of the queue: either the timer fires, at its due time, or another
event fires and the potential drops. -/
theorem advance_inv (cb : Nat → Nat → σ → σ) (t0 P T : Nat) (hP : 0 < P)
    (q : EventQueue σ) (k : Nat) (h : TimerInv t0 P T q k) :
    TimerInv t0 P T (advance_to_next cb q) (k + 1) ∨
    (TimerInv t0 P T (advance_to_next cb q) k ∧
      potential T (t0 + (k + 1) * P) (advance_to_next cb q).pending
        < potential T (t0 + (k + 1) * P) q.pending) := by
  obtain ⟨hf, hpos, hfired⟩ := h
  have hTmem : timer_event t0 P T k ∈ q.pending := by
    have : timer_event t0 P T k ∈ q.pending.filter (fun e => e.owner = T) := by
      rw [hf]; exact List.mem_singleton.2 rfl
    exact (List.mem_filter.1 this).1
  cases he : earliest q.pending with
  | none =>
    rw [earliest_none _ he] at hTmem
    cases hTmem
  | some e =>
    have hem := earliest_mem _ _ he
    have hle := earliest_le _ _ he _ hTmem
    by_cases ho : e.owner = T
    · left
      have heq : e = timer_event t0 P T k := by
        have : e ∈ q.pending.filter (fun e => e.owner = T) :=
          List.mem_filter.2 ⟨hem, by simpa using ho⟩
        rw [hf] at this
        exact List.mem_singleton.1 this
      have hadv : advance_to_next cb q =
          { clock := e.fire_time
            pending := q.pending.erase e ++ [timer_event t0 P T (k + 1)]
            machine := cb e.owner e.fire_time q.machine
            fired := q.fired ++ [(e.fire_time, e.owner)] } := by
        unfold advance_to_next
        rw [he]
        simp only [heq, timer_event_succ]
        simp [timer_event]
      rw [hadv]
      refine ⟨?_, ?_, ?_⟩
      · simp only [List.filter_append, ← List.erase_filter, hf, heq]
        simp [timer_event]
      · intro x hx hr
        rcases List.mem_append.1 hx with hx | hx
        · exact hpos x (List.mem_of_mem_erase hx) hr
        · rw [List.mem_singleton.1 hx]; exact hP
      · simp only [firings_of, List.filter_append, List.map_append] at hfired ⊢
        rw [hfired, expected_firings_succ, heq]
        simp [timer_event]
    · right
      have hne : e ≠ timer_event t0 P T k := by
        intro hc; rw [hc] at ho; exact ho rfl
      have hfr : (q.pending.erase e).filter (fun e => e.owner = T)
          = [timer_event t0 P T k] := by
        rw [← List.erase_filter, hf]
        simp [hne.symm]
      have hw : 1 ≤ weight T (t0 + (k + 1) * P) e := by
        simp only [weight, ho, if_false]
        simp only [timer_event] at hle
        omega
      have hsum := List.sum_map_erase (weight T (t0 + (k + 1) * P)) hem
      cases hr : e.recurring with
      | false =>
        have hadv : advance_to_next cb q =
            { clock := e.fire_time
              pending := q.pending.erase e
              machine := cb e.owner e.fire_time q.machine
              fired := q.fired ++ [(e.fire_time, e.owner)] } := by
          unfold advance_to_next
          rw [he]
          simp [hr]
        rw [hadv]
        refine ⟨⟨hfr, ?_, ?_⟩, ?_⟩
        · intro x hx hrx
          exact hpos x (List.mem_of_mem_erase hx) hrx
        · simp only [firings_of, List.filter_append, List.map_append] at hfired ⊢
          rw [hfired]
          simp [ho]
        · simp only [potential]
          omega
      | true =>
        have hper := hpos e hem hr
        have hadv : advance_to_next cb q =
            { clock := e.fire_time
              pending := q.pending.erase e ++ [{ e with fire_time := e.fire_time + e.period }]
              machine := cb e.owner e.fire_time q.machine
              fired := q.fired ++ [(e.fire_time, e.owner)] } := by
          unfold advance_to_next
          rw [he]
          simp [hr]
        rw [hadv]
        refine ⟨⟨?_, ?_, ?_⟩, ?_⟩
        · simp only [List.filter_append, hfr]
          simp [ho]
        · intro x hx hrx
          rcases List.mem_append.1 hx with hx | hx
          · exact hpos x (List.mem_of_mem_erase hx) hrx
          · rw [List.mem_singleton.1 hx]; exact hper
        · simp only [firings_of, List.filter_append, List.map_append] at hfired ⊢
          rw [hfired]
          simp [ho]
        · simp only [potential, List.map_append, List.sum_append, List.map_cons, List.map_nil,
            List.sum_cons, List.sum_nil]
          have hw' : weight T (t0 + (k + 1) * P)
              { e with fire_time := e.fire_time + e.period }
              < weight T (t0 + (k + 1) * P) e := by
            simp only [weight, ho, if_false] at hw ⊢
            omega
          omega

theorem run_inv (cb : Nat → Nat → σ → σ) (t0 P T : Nat) (hP : 0 < P) :
    ∀ (n : Nat) (q : EventQueue σ) (k : Nat), TimerInv t0 P T q k →
      ∃ k', TimerInv t0 P T (run cb n q) k'
  | 0, q, k, h => ⟨k, h⟩
  | n + 1, q, k, h => by
    rcases advance_inv cb t0 P T hP q k h with h' | ⟨h', _⟩
    · exact run_inv cb t0 P T hP n _ _ h'
    · exact run_inv cb t0 P T hP n _ _ h'

theorem timer_fires (cb : Nat → Nat → σ → σ) (t0 P T : Nat) (hP : 0 < P) :
    ∀ (bound : Nat) (q : EventQueue σ) (k : Nat), TimerInv t0 P T q k →
      potential T (t0 + (k + 1) * P) q.pending ≤ bound →
      ∃ n, TimerInv t0 P T (run cb n q) (k + 1)
  | 0, q, k, h, hb => by
    rcases advance_inv cb t0 P T hP q k h with h' | ⟨_, hlt⟩
    · exact ⟨1, h'⟩
    · omega
  | bound + 1, q, k, h, hb => by
    rcases advance_inv cb t0 P T hP q k h with h' | ⟨h', hlt⟩
    · exact ⟨1, h'⟩
    · obtain ⟨n, hn⟩ := timer_fires cb t0 P T hP bound _ k h' (by omega)
      exact ⟨n + 1, hn⟩

theorem timer_fires_k (cb : Nat → Nat → σ → σ) (t0 P T : Nat) (hP : 0 < P)
    (q : EventQueue σ) (h : TimerInv t0 P T q 0) :
    ∀ k, ∃ n, TimerInv t0 P T (run cb n q) k
  | 0 => ⟨0, h⟩
  | k + 1 => by
    obtain ⟨n, hn⟩ := timer_fires_k cb t0 P T hP q h k
    obtain ⟨m, hm⟩ := timer_fires cb t0 P T hP _ _ k hn (Nat.le_refl _)
    exact ⟨n + m, by rw [run_add]; exact hm⟩

theorem schedule_periodic_inv (t0 P T : Nat) (hP : 0 < P) (others : List ScheduledEvent)
    (m : σ) (hT : ∀ e ∈ others, e.owner ≠ T)
    (hpos : ∀ e ∈ others, e.recurring = true → 0 < e.period) :
    TimerInv t0 P T
      (⟨t0, others ++ [⟨t0 + P, T, true, P⟩], m, []⟩ : EventQueue σ) 0 := by
  refine ⟨?_, ?_, ?_⟩
  · have hnil : others.filter (fun e => e.owner = T) = [] := by
      rw [List.filter_eq_nil_iff]
      intro e he
      simpa using hT e he
    simp [List.filter_append, hnil, timer_event]
  · intro x hx hr
    rcases List.mem_append.1 hx with hx | hx
    · exact hpos x hx hr
    · rw [List.mem_singleton.1 hx]; exact hP
  · simp [firings_of, expected_firings]

end EventQueue

/-- C20: the periodic `scan_artwork` timer of the md6802 and mp68a machines has
period `P = 1/10 s = 100 ms`.  Registered at time `t0` in a queue that may hold
any events of other devices (recurring ones with positive periods), it fires
at exactly `t0 + P, t0 + 2P, t0 + 3P, ...`: after any number of steps its
recorded fire times are `t0 + P, ..., t0 + kP` for some `k`, and every `k` is
reached.  This holds for every callback, whatever it does to the machine
state. -/
theorem artwork_timer_no_drift {σ : Type} (cb : Nat → Nat → σ → σ) (t0 T : Nat)
    (others : List ScheduledEvent) (m : σ)
    (hT : ∀ e ∈ others, e.owner ≠ T)
    (hpos : ∀ e ∈ others, e.recurring = true → 0 < e.period) :
    artwork_timer_period = 100 * ATTOSECONDS_PER_MILLISECOND ∧
    ∃ q, EventQueue.schedule_periodic ⟨t0, others, m, []⟩ T artwork_timer_period = some q ∧
      (∀ n, ∃ k, EventQueue.firings_of T (EventQueue.run cb n q)
        = (List.range k).map (fun j => t0 + (j + 1) * artwork_timer_period)) ∧
      (∀ k, ∃ n, EventQueue.firings_of T (EventQueue.run cb n q)
        = (List.range k).map (fun j => t0 + (j + 1) * artwork_timer_period)) := by
  have hP : 0 < artwork_timer_period := by decide
  have hinv := EventQueue.schedule_periodic_inv t0 artwork_timer_period T hP others m hT hpos
  refine ⟨by decide,
    ⟨t0, others ++ [⟨t0 + artwork_timer_period, T, true, artwork_timer_period⟩], m, []⟩,
    ?_, ?_, ?_⟩
  · unfold EventQueue.schedule_periodic
    rw [if_neg (by decide)]
  · intro n
    obtain ⟨k, hk⟩ := EventQueue.run_inv cb t0 artwork_timer_period T hP n _ 0 hinv
    exact ⟨k, hk.2.2⟩
  · intro k
    obtain ⟨n, hn⟩ := EventQueue.timer_fires_k cb t0 artwork_timer_period T hP _ hinv k
    exact ⟨n, hn.2.2⟩

/-- Witness of C20 on an md6802 queue: the timer (device 9) is registered at
`t0 = 5` next to a recurring event of period 50 ms and a one-shot event; the
`Reset` key is held down (`LINE4 = 0x04`), so the first callback calls
`machine_reset`.  The timer's first two firings are at `t0 + P` and `t0 + 2P`. -/
theorem artwork_timer_no_drift_witness :
    ((∀ e ∈ [(⟨7, 1, true, 50000000000000000⟩ : ScheduledEvent), ⟨105, 2, false, 0⟩],
        e.owner ≠ 9) ∧
     (∀ e ∈ [(⟨7, 1, true, 50000000000000000⟩ : ScheduledEvent), ⟨105, 2, false, 0⟩],
        e.recurring = true → 0 < e.period)) ∧
    artwork_timer_period = 100 * ATTOSECONDS_PER_MILLISECOND ∧
    ((EventQueue.schedule_periodic
        (⟨5, [⟨7, 1, true, 50000000000000000⟩, ⟨105, 2, false, 0⟩], didact_state.init, []⟩ :
          EventQueue didact_state) 9 artwork_timer_period).map
      (fun q => EventQueue.firings_of 9
        (EventQueue.run (didact_callback 9 md6802_state.machine_reset (fun _ => 0x04)
          (fun _ _ s => s)) 7 q)))
      = some [5 + artwork_timer_period, 5 + 2 * artwork_timer_period] ∧
    ((EventQueue.schedule_periodic
        (⟨5, [⟨7, 1, true, 50000000000000000⟩, ⟨105, 2, false, 0⟩], didact_state.init, []⟩ :
          EventQueue didact_state) 9 artwork_timer_period).map
      (fun q => (EventQueue.run (didact_callback 9 md6802_state.machine_reset (fun _ => 0x04)
          (fun _ _ s => s)) 7 q).machine.maincpu_resets))
      = some 1 :=
  ⟨⟨by decide, by decide⟩,
   (artwork_timer_no_drift
      (didact_callback 9 md6802_state.machine_reset (fun _ => 0x04) (fun _ _ s => s)) 5 9
      [⟨7, 1, true, 50000000000000000⟩, ⟨105, 2, false, 0⟩] didact_state.init
      (by decide) (by decide)).1,
   by decide, by decide⟩
